import Mathlib

/-!
Verification of the Find_Bibliography core against its specification.

The Python sources are shallowly embedded: strings are `String`/`List Char`,
machine floats used for scores and thresholds are modelled exactly as `ℚ`,
fallible code returns `Except String`.  Each regular expression of the source
is hand-translated into an executable matcher implementing Python's
leftmost/backtracking `re` semantics for that concrete pattern.
-/

set_option maxRecDepth 4000

/-! ## Python string primitives -/

/-- Characters Python's `str.strip()` / `\s` treat as whitespace
(the ASCII whitespace plus the Unicode spaces that occur in this code base). -/
def pyWsChars : List Char :=
  [' ', '\t', '\n', '\r', '\x0b', '\x0c', '\x85', '\u00A0', '\u1680',
   '\u2000', '\u2001', '\u2002', '\u2003', '\u2004', '\u2005', '\u2006',
   '\u2007', '\u2008', '\u2009', '\u200A', '\u2028', '\u2029', '\u202F',
   '\u205F', '\u3000']

def pyIsWs (c : Char) : Bool := pyWsChars.contains c

/-- Letters recognised by the embedding (`str.isalpha` restricted to the
alphabets occurring in this repository: ASCII plus German/French letters). -/
def pyExtraLower : List Char := ['ä', 'ö', 'ü', 'ß', 'é', 'è', 'í', 'à', 'â']

def pyExtraUpper : List Char := ['Ä', 'Ö', 'Ü', 'É', 'È', 'Í', 'À', 'Â']

def pyIsLower (c : Char) : Bool :=
  ('a' ≤ c ∧ c ≤ 'z') ∨ pyExtraLower.contains c

def pyIsUpper (c : Char) : Bool :=
  ('A' ≤ c ∧ c ≤ 'Z') ∨ pyExtraUpper.contains c

def pyIsAlpha (c : Char) : Bool := pyIsLower c || pyIsUpper c

def pyIsDigit (c : Char) : Bool := '0' ≤ c ∧ c ≤ '9'

/-- Python `\w` (word character): letters, digits, underscore. -/
def pyIsWord (c : Char) : Bool := pyIsAlpha c || pyIsDigit c || c = '_'

def pyToLower (c : Char) : Char :=
  if 'A' ≤ c ∧ c ≤ 'Z' then Char.ofNat (c.toNat + 32)
  else if c = 'Ä' then 'ä' else if c = 'Ö' then 'ö' else if c = 'Ü' then 'ü'
  else if c = 'É' then 'é' else if c = 'È' then 'è' else if c = 'Í' then 'í'
  else if c = 'À' then 'à' else if c = 'Â' then 'â' else c

def pyToUpper (c : Char) : Char :=
  if 'a' ≤ c ∧ c ≤ 'z' then Char.ofNat (c.toNat - 32)
  else if c = 'ä' then 'Ä' else if c = 'ö' then 'Ö' else if c = 'ü' then 'Ü'
  else if c = 'é' then 'É' else if c = 'è' then 'È' else if c = 'í' then 'Í'
  else if c = 'à' then 'À' else if c = 'â' then 'Â' else c

def lowerL (cs : List Char) : List Char := cs.map pyToLower

def lowerS (s : String) : String := String.mk (lowerL s.data)

/-- `str.lstrip()` on character lists. -/
def lstripL (cs : List Char) : List Char := cs.dropWhile pyIsWs

/-- `str.rstrip()` on character lists. -/
def rstripL (cs : List Char) : List Char := (cs.reverse.dropWhile pyIsWs).reverse

/-- `str.strip()` on character lists. -/
def stripL (cs : List Char) : List Char := rstripL (lstripL cs)

/-- `str.strip(chars)` on character lists. -/
def stripCharsL (chars : List Char) (cs : List Char) : List Char :=
  ((cs.dropWhile chars.contains).reverse.dropWhile chars.contains).reverse

/-- The loop of `str.split()`: `acc` is the reversed word in progress. -/
def pySplitWsAux : List Char → List Char → List (List Char)
  | [], acc => if acc.isEmpty then [] else [acc.reverse]
  | c :: rest, acc =>
    if pyIsWs c then
      if acc.isEmpty then pySplitWsAux rest [] else acc.reverse :: pySplitWsAux rest []
    else pySplitWsAux rest (c :: acc)

/-- `str.split()` (whitespace split, empty pieces dropped). -/
def pySplitWs (cs : List Char) : List (List Char) := pySplitWsAux cs []

/-- Structural `mapIdx` (kernel-reducible, used for concrete evaluation). -/
def mapIdxL {α β : Type} (f : Nat → α → β) : Nat → List α → List β
  | _, [] => []
  | i, w :: ws => f i w :: mapIdxL f (i + 1) ws

/-- Line-break characters of Python `str.splitlines`. -/
def pyIsLineBreak (c : Char) : Bool :=
  ['\n', '\r', '\x0b', '\x0c', '\x1c', '\x1d', '\x1e', '\x85', '\u2028', '\u2029'].contains c

def pySplitlinesAux : List Char → List Char → List (List Char)
  | [], acc => if acc.isEmpty then [] else [acc.reverse]
  | '\r' :: '\n' :: rest, acc => acc.reverse :: pySplitlinesAux rest []
  | c :: rest, acc =>
    if pyIsLineBreak c then acc.reverse :: pySplitlinesAux rest []
    else pySplitlinesAux rest (c :: acc)

/-- Python `str.splitlines()`. -/
def pySplitlines (cs : List Char) : List (List Char) := pySplitlinesAux cs []

/-- `" ".join(words)` / `sep.join` building block: joins with a single space. -/
def joinSp : List (List Char) → List Char
  | [] => []
  | [w] => w
  | w :: ws => w ++ ' ' :: joinSp ws

/-- Python `str.capitalize()` (first char uppercased, rest lowercased). -/
def pyCapitalize : List Char → List Char
  | [] => []
  | c :: rest => pyToUpper c :: rest.map pyToLower

/-- Does `needle` occur at position `i` of `hay` (case-sensitive)? -/
def subAt (hay needle : List Char) (i : Nat) : Bool :=
  needle.isPrefixOf (hay.drop i)

/-- Python `needle in hay` (substring containment). -/
def containsSub (hay needle : List Char) : Bool :=
  (List.range (hay.length + 1)).any (subAt hay needle)

/-! ## `services/ref_extractor.py` — `_merge_lines` (LineMerger) -/

/-- `re.search(r"[.;:,]$", buf)`: does the buffer end in terminal punctuation?
(The buffer never ends in a newline, so the `$` subtlety is vacuous.) -/
def endsTermPunct (buf : List Char) : Bool :=
  match buf.getLast? with
  | some c => [',', '.', ';', ':'].contains c
  | none => false

/-- `ln[0].islower()` test of `_merge_lines` on a non-empty right-stripped line. -/
def headIsLower (ln : List Char) : Bool :=
  match ln.head? with
  | some c => pyIsLower c
  | none => false

/-- The loop of `_merge_lines`: `buf` is the current buffer (`[]` = falsy `""`). -/
def mergeAux : List (List Char) → List Char → List (List Char)
  | [], buf => if buf.isEmpty then [] else [buf]
  | ln :: rest, buf =>
    let l := rstripL ln
    if l.isEmpty then
      if buf.isEmpty then mergeAux rest [] else buf :: mergeAux rest []
    else if !buf.isEmpty && !endsTermPunct buf && headIsLower l then
      mergeAux rest (buf ++ ' ' :: l)
    else
      if buf.isEmpty then mergeAux rest l else buf :: mergeAux rest l

/-- `services/ref_extractor.py::_merge_lines` — joins soft-wrapped lines. -/
def mergeLines (pageText : String) : List String :=
  (mergeAux (pySplitlines pageText.data) []).map String.mk

/-- The right-trimmed non-blank input lines of a page text, in order. -/
def nonBlankLines (cs : List Char) : List (List Char) :=
  ((pySplitlines cs).map rstripL).filter (fun l => !l.isEmpty)

/-! ## `ref_normalizer.py` — smart title case and deduplication -/

/-- `ref_normalizer.STOPWORDS_TITLE`. -/
def STOPWORDS_TITLE : List String :=
  ["and", "of", "the", "in", "und", "der", "die", "das", "im", "den", "vom", "zum", "zur",
   "et", "de", "du", "des", "la", "le", "ou", "or", "to", "for", "from", "bei", "am", "an"]

/-- `ref_normalizer._is_all_caps`: uppercase-letter ratio of the letters is
at least `0.85` (exactly `17/20`, modelled rationally). -/
def isAllCaps (s : String) : Bool :=
  let letters := s.data.filter pyIsAlpha
  if letters.isEmpty then false
  else 20 * (letters.filter pyIsUpper).length ≥ 17 * letters.length

def isRomanChar (c : Char) : Bool := ['M', 'D', 'C', 'L', 'X', 'V', 'I'].contains c

/-- `re.fullmatch(r"[MDCLXVI]+", w.upper())` on a word. -/
def romanToken (w : List Char) : Bool := !w.isEmpty && (w.map pyToUpper).all isRomanChar

/-- One word of `_smart_titlecase` (input word is already lowercased). -/
def smartWord (i : Nat) (w : List Char) : List Char :=
  if romanToken w then w.map pyToUpper
  else if i = 0 || !((STOPWORDS_TITLE.map String.data).contains w) then pyCapitalize w
  else w

/-- `ref_normalizer._smart_titlecase`. -/
def smartTitlecase (s : String) : String :=
  String.mk (joinSp (mapIdxL smartWord 0 (pySplitWs (lowerL s.data))))

/-- Python `str.split(sep)` for a single separator character. -/
def splitOnChar (sep : Char) : List Char → List (List Char)
  | [] => [[]]
  | c :: rest =>
    if c = sep then [] :: splitOnChar sep rest
    else
      match splitOnChar sep rest with
      | p :: ps => (c :: p) :: ps
      | [] => [[c]]

def semiSubJoin : List Char → List (List Char) → List Char
  | p, [] => p
  | p, q :: qs => rstripL p ++ ':' :: ' ' :: semiSubJoin (lstripL q) qs

/-- `re.sub(r"\s*;\s*", ": ", t)` of `_clean_title`: every `;` together with
the contiguous whitespace around it becomes `": "` (each match of the pattern
holds exactly one `;`, its leading `\s*` taking the whitespace run before it
and its trailing `\s*` the run after it). -/
def semiSub (cs : List Char) : List Char :=
  match splitOnChar ';' cs with
  | p :: ps => semiSubJoin p ps
  | [] => cs

/-- `re.sub(r"\s*\(\s*\)\s*$", "", t)` of `_clean_title`. -/
def emptyParenSub (cs : List Char) : List Char :=
  let r := cs.reverse.dropWhile pyIsWs
  match r with
  | ')' :: r2 =>
    (match r2.dropWhile pyIsWs with
     | '(' :: r4 => (r4.dropWhile pyIsWs).reverse
     | _ => cs)
  | _ => cs

/-- `ref_normalizer._clean_title`. -/
def cleanTitle (t : String) : String :=
  let t1 := String.mk (joinSp (pySplitWs t.data))
  let t2 := if isAllCaps t1 then smartTitlecase t1 else t1
  String.mk (stripCharsL [' ', ',', ';', '.'] (emptyParenSub (semiSub t2.data)))

/-- An ordered `{family, given}` name, as produced by `ref_parser.split_people`. -/
structure Person where
  family : String
  given : String
deriving DecidableEq, Repr

/-- `ref_normalizer.NormalizedRef` (the `raw` back-reference to the original
record dictionary is omitted: it never influences deduplication). -/
structure NormalizedRef where
  style_family : String
  entry_type : String
  authors : List Person
  editors : List Person
  title : String
  container_title : Option String
  publisher : Option String
  publisher_place : Option String
  year : Option Int
  volume : Option String
  issue : Option String
  pages : Option String
  doi : Option String
  isbn : Option String
  url : Option String
deriving DecidableEq, Repr

/-- The lowercased first family name used by both dedup modes
(first author, else first editor, else `""`). -/
def keyFam (r : NormalizedRef) : String :=
  match r.authors with
  | p :: _ => lowerS p.family
  | [] =>
    match r.editors with
    | p :: _ => lowerS p.family
    | [] => ""

/-- The exact dedup key `(family.lower(), title.lower(), year or 0)`. -/
def dedupKey (r : NormalizedRef) : String × String × Int :=
  (keyFam r, lowerS r.title, r.year.getD 0)

/-- The seen-set loop of `dedupe_records` in its exact-key mode
(`rapidfuzz` unavailable). -/
def dedupeExactAux : List (String × String × Int) → List NormalizedRef → List NormalizedRef
  | _, [] => []
  | seen, r :: rs =>
    if seen.contains (dedupKey r) then dedupeExactAux seen rs
    else r :: dedupeExactAux (dedupKey r :: seen) rs

/-- `ref_normalizer.dedupe_records`, exact-key fallback mode. -/
def dedupeExact (records : List NormalizedRef) : List NormalizedRef :=
  dedupeExactAux [] records

/-- The duplicate test of the fuzzy mode of `dedupe_records`: years absent or
within 1, families absent or equal, and title similarity at least the
threshold.  `sim` abstracts `rapidfuzz.fuzz.token_set_ratio` (an external
library; any pure similarity function). -/
def fuzzyMatches (sim : String → String → ℚ) (threshold : ℚ)
    (ri rj : NormalizedRef) : Bool :=
  let yi := ri.year.getD 0
  let yj := rj.year.getD 0
  if yi ≠ 0 ∧ yj ≠ 0 ∧ (yi - yj).natAbs > 1 then false
  else if keyFam ri ≠ "" ∧ keyFam rj ≠ "" ∧ keyFam ri ≠ keyFam rj then false
  else sim (lowerS ri.title) (lowerS rj.title) ≥ threshold

/-- `ref_normalizer.dedupe_records`, fuzzy mode.  The source keeps record `i`
and marks every later unused `j` matching `i` as used; keeping the head and
filtering the matching later records is the same computation. -/
def dedupeFuzzy (sim : String → String → ℚ) (threshold : ℚ) :
    List NormalizedRef → List NormalizedRef
  | [] => []
  | r :: rs =>
    r :: dedupeFuzzy sim threshold (rs.filter fun x => !fuzzyMatches sim threshold r x)
termination_by rs => rs.length
decreasing_by
  simp
  exact Nat.lt_succ_of_le (List.length_filter_le _ _)

/-! ## `find_bibliography.py` — interval selection (IntervalScorer) -/

/-- Stable insertion of one element into a sorted list (ascending). -/
def insertSorted (x : ℚ) : List ℚ → List ℚ
  | [] => [x]
  | y :: ys => if x ≤ y then x :: y :: ys else y :: insertSorted x ys

/-- Python `sorted()` modelled by insertion sort (a sorted permutation is all
`statistics.median` needs). -/
def insSort : List ℚ → List ℚ
  | [] => []
  | x :: xs => insertSorted x (insSort xs)

/-- `statistics.median`: raises `StatisticsError` on empty data; middle
element for odd length, average of the two middle elements for even. -/
def medianQ (xs : List ℚ) : Except String ℚ :=
  let s := insSort xs
  let n := xs.length
  if n = 0 then .error "no median for empty data"
  else if n % 2 = 1 then .ok (s.getD (n / 2) 0)
  else .ok ((s.getD (n / 2 - 1) 0 + s.getD (n / 2) 0) / 2)

/-- `statistics.mean(scores[a : b+1])` (slice mean; slices in the source are
always non-empty, so the division is never by zero). -/
def runMean (scores : List ℚ) (r : Nat × Nat) : ℚ :=
  let seg := (scores.drop r.1).take (r.2 + 1 - r.1)
  seg.sum / (seg.length : ℚ)

/-- The tie-break quantity `cand[1] - cand[0]` of `_choose_better`. -/
def runSpread (r : Nat × Nat) : Nat := r.2 - r.1

/-- The strict preference of `_choose_better`: higher mean score, ties broken
by greater spread (`cand[1]-cand[0] > cur[1]-cur[0]`). -/
def Beats (scores : List ℚ) (cand cur : Nat × Nat) : Prop :=
  runMean scores cur < runMean scores cand ∨
    (runMean scores cand = runMean scores cur ∧ runSpread cur < runSpread cand)

instance (scores : List ℚ) (cand cur : Nat × Nat) :
    Decidable (Beats scores cand cur) := by
  unfold Beats
  infer_instance

/-- `find_bibliography._choose_better`: keep the interval with the higher
mean score, replacing the current one only when the candidate strictly
beats it. -/
def chooseBetter (scores : List ℚ) (cur : Option (Nat × Nat))
    (cand : Nat × Nat) : Nat × Nat :=
  match cur with
  | none => cand
  | some c => if Beats scores cand c then cand else c

/-- The interval-selection loop of `_evaluate` (lines 217–226): scan the
scores, open a run at the first qualifying index, close it at the first
non-qualifying one and feed it to `_choose_better`. -/
def bestRunAux (scoresAll : List ℚ) (thr : ℚ) :
    Nat → List ℚ → Option (Nat × Nat) → Option Nat → Option (Nat × Nat)
  | i, [], best, cur =>
    match cur with
    | some c => some (chooseBetter scoresAll best (c, i - 1))
    | none => best
  | i, sc :: rest, best, cur =>
    if sc ≥ thr then
      bestRunAux scoresAll thr (i + 1) rest best
        (match cur with | none => some i | some c => some c)
    else
      match cur with
      | some c =>
        bestRunAux scoresAll thr (i + 1) rest
          (some (chooseBetter scoresAll best (c, i - 1))) none
      | none => bestRunAux scoresAll thr (i + 1) rest best none

/-- `MIN_BLOCK_LEN` of `find_bibliography.py`. -/
def MIN_BLOCK_LEN : Nat := 2

/-- The interval selection of `_evaluate` (median, threshold `median × boost`,
best run, final length filter), as a function of the page scores. -/
def selectInterval (scores : List ℚ) (boost : ℚ) :
    Except String (Option (Nat × Nat)) :=
  match medianQ scores with
  | .error e => .error e
  | .ok med =>
    match bestRunAux scores (med * boost) 0 scores none none with
    | some b => if b.2 - b.1 + 1 ≥ MIN_BLOCK_LEN then .ok (some b) else .ok none
    | none => .ok none

/-- Which indices qualify (`score ≥ median × boost`). -/
def qualFlags (scores : List ℚ) (thr : ℚ) : List Bool :=
  scores.map (fun sc => decide (sc ≥ thr))

/-- Specification-side run decomposition: the maximal runs of consecutive
`true` flags, as `(first, last)` index pairs; `cur` is the start of the open
run. -/
def runsOfAux : Nat → List Bool → Option Nat → List (Nat × Nat)
  | i, [], some s => [(s, i - 1)]
  | _, [], none => []
  | i, true :: rest, some s => runsOfAux (i + 1) rest (some s)
  | i, true :: rest, none => runsOfAux (i + 1) rest (some i)
  | i, false :: rest, some s => (s, i - 1) :: runsOfAux (i + 1) rest none
  | i, false :: rest, none => runsOfAux (i + 1) rest none

/-- The maximal runs of qualifying indices. -/
def maximalRuns (flags : List Bool) : List (Nat × Nat) := runsOfAux 0 flags none

/-! ## `services/delb` — document model and detector cascade -/

/-- A row of the PDF outline as returned by `fitz` `get_toc(simple=True)`:
`(level, title, 0-based page)`; the page can be `-1` for entries without a
destination. -/
structure OutlineEntry where
  lvl : Int
  title : String
  page0 : Int

/-- A heading produced by the font pipeline (`scan_fonts.analyse_pdf` →
`detect_chapters.analyse_file`), as consumed by the heading-fonts stage:
a 1-based page and the heading text. -/
structure Heading where
  page : Int
  text : String

/-- The document model: per-page extracted text (PyMuPDF and pdfplumber are
modelled as returning the same text), the outline, and the result of the
font/chapter pipeline (`None` when `analyse_file` failed). -/
structure PdfDoc where
  pages : List String
  outline : List OutlineEntry
  chapters : Option (List Heading)

/-- The two term catalogs loaded from `bibliography_terms.csv`:
`find_bibliography.BIB_TERMS` (all cells) and `keyword_hits.TERMS`
(the `term` column). -/
structure TermConfig where
  bibTerms : List String
  kwTerms : List String

instance {ε α : Type} [DecidableEq ε] [DecidableEq α] : DecidableEq (Except ε α) :=
  fun a b =>
    match a, b with
    | .ok x, .ok y =>
      if h : x = y then isTrue (by rw [h]) else isFalse (by simp [h])
    | .error x, .error y =>
      if h : x = y then isTrue (by rw [h]) else isFalse (by simp [h])
    | .ok _, .error _ => isFalse (by simp)
    | .error _, .ok _ => isFalse (by simp)

/-! ### `extract_toc.py` -/

/-- The union of all `BASE_KEYWORDS` values (the source always unions every
language's set into the lookup, so the detected language is irrelevant). -/
def TOC_BASE_KEYWORDS : List String :=
  ["table of contents", "contents", "content", "inhaltsverzeichnis",
   "table des matières", "índice", "indice", "sommario"]

/-- `DOT_LEADER_RE = r"\.{2,}\s*(\d+|[IVXLCDM]+)\s*$"` (match existence):
reading from the right — optional whitespace, a non-empty digit or Roman
token, optional whitespace, then at least two dots. -/
def dotLeaderHit (ln : List Char) : Bool :=
  let r := ln.reverse.dropWhile pyIsWs
  let rd := r.takeWhile pyIsDigit
  let rr := r.takeWhile isRomanChar
  if !rd.isEmpty then
    (((r.drop rd.length).dropWhile pyIsWs).takeWhile (fun c => c = '.')).length ≥ 2
  else if !rr.isEmpty then
    (((r.drop rr.length).dropWhile pyIsWs).takeWhile (fun c => c = '.')).length ≥ 2
  else false

/-- `NUM_RE = r"\s(\d+|[IVXLCDM]+)\s*$"` (match existence): a trailing digit
or Roman token immediately preceded by one whitespace character. -/
def trailingNumHit (ln : List Char) : Bool :=
  let r := ln.reverse.dropWhile pyIsWs
  let rd := r.takeWhile pyIsDigit
  let rr := r.takeWhile isRomanChar
  if !rd.isEmpty then pyIsWs ((r.drop rd.length).headD 'x')
  else if !rr.isEmpty then pyIsWs ((r.drop rr.length).headD 'x')
  else false

/-- `extract_toc._looks_like_toc`.  The `0.6` ratio test is exact
(`numbered / len(lines) > 0.6` becomes `5 * numbered > 3 * len`); an all-blank
non-empty page text reaches `numbered / len([])` and raises
`ZeroDivisionError`, modelled as an error. -/
def looksLikeToc (txt : String) : Except String Bool :=
  if txt.data.isEmpty then .ok false
  else
    let lower := lowerL txt.data
    if TOC_BASE_KEYWORDS.any (fun k => containsSub lower k.data) then .ok true
    else
      let lines := ((pySplitlines txt.data).map stripL).filter (fun l => !l.isEmpty)
      let dotted := (lines.filter dotLeaderHit).length
      let numbered := (lines.filter trailingNumHit).length
      if dotted ≥ 3 then .ok true
      else if lines.length = 0 then .error "division by zero"
      else .ok (decide (5 * numbered > 3 * lines.length) && decide (numbered ≥ 4))

def repeatL (s : List Char) : Nat → List Char
  | 0 => []
  | n + 1 => s ++ repeatL s n

/-- The synthetic ToC lines built from the outline:
`f"{'  ' * (lvl - 1)}{title} ...... {pg + 1}"`. -/
def outlineLines (entries : List OutlineEntry) : List String :=
  entries.map (fun e =>
    String.mk (repeatL [' ', ' '] (e.lvl - 1).toNat ++ e.title.data ++
      (" ...... ").data ++ (toString (e.page0 + 1)).data))

/-- The heuristic page loop of `extract_toc._scan_pdf` (first third of the
pages, `max_pages=None` as called from `detect_bibliography`). -/
def tocHeuristicLoop (pages : List String) : Nat → Nat → Except String (Option Int × List String)
  | _, 0 => .ok (none, [])
  | idx, fuel + 1 =>
    let txt := pages.getD idx ""
    match looksLikeToc txt with
    | .error e => .error e
    | .ok true =>
      .ok (some ((idx : Int) + 1),
        (((pySplitlines txt.data).map stripL).filter (fun l => !l.isEmpty)).map String.mk)
    | .ok false => tocHeuristicLoop pages (idx + 1) fuel

/-- `extract_toc._scan_pdf`: outline first (`if page_no:` — any non-zero
first-entry page wins), else the heuristic scan of the first third. -/
def scanPdfToc (doc : PdfDoc) : Except String (Option Int × List String) :=
  let heuristic := tocHeuristicLoop doc.pages 0 ((doc.pages.length + 2) / 3)
  match doc.outline with
  | [] => heuristic
  | e0 :: _ =>
    if e0.page0 + 1 ≠ 0 then .ok (some (e0.page0 + 1), outlineLines doc.outline)
    else heuristic

/-! ### `find_bibliography.py` — ToC row and orchestrator helpers -/

def TOC_KEYS : List String :=
  ["bibliograph", "literatur", "reference", "works cited", "literature cited"]

def natOfDigits (ds : List Char) : Nat :=
  ds.foldl (fun acc c => acc * 10 + (c.toNat - 48)) 0

/-- `_TOC_NUM = r"(?:\.{2,}|\s)(\d{1,4})\s*$"`: the trailing number of a ToC
row — a trailing digit run of length 1–4 immediately preceded by at least two
dots or a single whitespace character. -/
def tocNumMatch (ln : List Char) : Option Nat :=
  let r := ln.reverse.dropWhile pyIsWs
  let rd := r.takeWhile pyIsDigit
  if rd.isEmpty || decide (rd.length > 4) then none
  else
    let rest := r.drop rd.length
    if decide ((rest.takeWhile (fun c => c = '.')).length ≥ 2) || pyIsWs (rest.headD 'x') then
      some (natOfDigits rd.reverse)
    else none

/-- `find_bibliography._bib_from_toc`: first ToC line containing a
bibliography keyword and carrying a trailing number. -/
def bibFromToc : List String → Option Int
  | [] => none
  | ln :: rest =>
    if TOC_KEYS.any (fun k => containsSub (lowerL ln.data) k.data) then
      match tocNumMatch ln.data with
      | some n => some (n : Int)
      | none => bibFromToc rest
    else bibFromToc rest

/-! ### `keyword_hits.py` -/

def isWordOpt : Option Char → Bool
  | some c => pyIsWord c
  | none => false

/-- `\b` between two (possibly absent) neighbouring characters. -/
def atBdry (a b : Option Char) : Bool := isWordOpt a != isWordOpt b

/-- `\b` at position `j` of `cs`. -/
def bdryAt (cs : List Char) (j : Nat) : Bool :=
  atBdry (if j = 0 then none else cs[j - 1]?) cs[j]?

/-- `_TERM_RE = r"\b(term1|…)\b"` with `re.I`: some catalog term occurs
literally (case-insensitively) at a word boundary. -/
def termHit (terms : List String) (txt : String) : Bool :=
  (List.range (txt.data.length + 1)).any (fun i =>
    terms.any (fun t =>
      !t.data.isEmpty &&
      decide (lowerL ((txt.data.drop i).take t.data.length) = lowerL t.data) &&
      decide (t.data.length ≤ (txt.data.drop i).length) &&
      bdryAt txt.data i && bdryAt txt.data (i + t.data.length)))

/-- `keyword_hits.analyse_pdf`: the 1-based pages whose text matches the
term catalog (page order preserved, so the list is ascending and the
subsequent `kw_pages.sort()` is the identity). -/
def analysePdf (kwTerms : List String) (doc : PdfDoc) : List Int :=
  ((List.range doc.pages.length).filter
    (fun i => termHit kwTerms (doc.pages.getD i ""))).map (fun i => Int.ofNat i + 1)

/-- The run-merging loop of stage 1 of `detect_bibliography` (`cur` is
non-empty by construction). -/
def kwRunsAux : List Int → List Int → List (List Int) → List (List Int)
  | [], cur, runs => runs ++ [cur]
  | p :: ps, cur, runs =>
    if p = cur.getLastD 0 + 1 then kwRunsAux ps (cur ++ [p]) runs
    else kwRunsAux ps [p] (runs ++ [cur])

/-- Python `max(runs, key=len)`: the first run of maximal length. -/
def maxByLen (runs : List (List Int)) : List Int :=
  match runs with
  | [] => []
  | r :: rest => rest.foldl (fun b x => if x.length > b.length then x else b) r

/-! ### `find_bibliography.py` — page scoring -/

def asciiUpper (c : Char) : Bool := 'A' ≤ c ∧ c ≤ 'Z'

def asciiLower (c : Char) : Bool := 'a' ≤ c ∧ c ≤ 'z'

/-- `[-._;()/:A-Za-z0-9]` — the DOI tail character class. -/
def doiTailChar (c : Char) : Bool :=
  pyIsDigit c || asciiUpper c || asciiLower c ||
    ['-', '.', '_', ';', '(', ')', '/', ':'].contains c

/-- `_RE_DOI = r"10\.\d{4,9}/[-._;()/:A-Za-z0-9]+"` (no word boundaries),
match existence: `10.`, then a maximal digit run of length 4–9, `/`, and at
least one tail character. -/
def doiFbHit (line : List Char) : Bool :=
  (List.range line.length).any (fun i =>
    subAt line ['1', '0', '.'] i &&
    (let r := ((line.drop (i + 3)).takeWhile pyIsDigit).length
     decide (4 ≤ r) && decide (r ≤ 9) &&
     decide ((line.drop (i + 3 + r)).headD ' ' = '/') &&
     doiTailChar ((line.drop (i + 3 + r + 1)).headD ' ')))

/-- `_RE_NUM = r"^\s*\[?\d{1,3}\]?[:.) ]"` (`re.match`). -/
def reNumMatch (line : List Char) : Bool :=
  let l1 := line.dropWhile pyIsWs
  let l2 := if l1.headD ' ' = '[' then l1.drop 1 else l1
  let r := (l2.takeWhile pyIsDigit).length
  let rest := l2.drop r
  decide (1 ≤ r) && decide (r ≤ 3) &&
    (let rest2 := if rest.headD ' ' = ']' then rest.drop 1 else rest
     [':', '.', ')', ' '].contains (rest2.headD 'x'))

/-- `[A-ZÄÖÜ]` (first author letter). -/
def authUpper (c : Char) : Bool := asciiUpper c || ['Ä', 'Ö', 'Ü'].contains c

/-- `[\w’'\-ÄÖÜäöüß]` (author-name characters). -/
def authChar (c : Char) : Bool :=
  pyIsWord c || ['’', '\'', '-', 'Ä', 'Ö', 'Ü', 'ä', 'ö', 'ü', 'ß'].contains c

/-- `_RE_AUTH = r"^[A-ZÄÖÜ][\w’'\-ÄÖÜäöüß]+,\s+[A-Z](?:[A-Z]|\w+)?\.?"`
(`re.match`; the trailing optional parts always succeed). -/
def reAuthMatch (line : List Char) : Bool :=
  match line with
  | [] => false
  | c0 :: rest =>
    authUpper c0 &&
    (let run := (rest.takeWhile authChar).length
     let rest2 := rest.drop run
     decide (1 ≤ run) && decide (rest2.headD ' ' = ',') &&
     (let ws := ((rest2.drop 1).takeWhile pyIsWs).length
      decide (1 ≤ ws) && asciiUpper (((rest2.drop 1).drop ws).headD 'x')))

/-- The year alternation of `_RE_YEAR_BARE`: `1[5-9]\d{2}|20\d{2}`. -/
def yearBareDigits (line : List Char) (i : Nat) : Bool :=
  match line.drop i with
  | c0 :: c1 :: c2 :: c3 :: _ =>
    ((decide (c0 = '1') && decide ('5' ≤ c1) && decide (c1 ≤ '9')) ||
      (decide (c0 = '2') && decide (c1 = '0'))) &&
      pyIsDigit c2 && pyIsDigit c3
  | _ => false

/-- `_RE_YEAR_BARE = r"\b(1[5-9]\d{2}|20\d{2})[a-z]?\b"` (match existence). -/
def yearBareHit (line : List Char) : Bool :=
  (List.range line.length).any (fun i =>
    bdryAt line i && yearBareDigits line i &&
      (bdryAt line (i + 4) ||
        (asciiLower ((line.drop (i + 4)).headD ' ') && bdryAt line (i + 5))))

/-- `find_bibliography._is_cite_line`. -/
def isCiteLine (line : List Char) : Bool :=
  doiFbHit line || reNumMatch line ||
    (reAuthMatch line && yearBareHit line) || yearBareHit line

/-- `re.findall(r"\w+", …)` — maximal word-character runs. -/
def wordRunsAux : List Char → List Char → List (List Char)
  | [], acc => if acc.isEmpty then [] else [acc.reverse]
  | c :: rest, acc =>
    if pyIsWord c then wordRunsAux rest (c :: acc)
    else if acc.isEmpty then wordRunsAux rest []
    else acc.reverse :: wordRunsAux rest []

def wordRuns (cs : List Char) : List (List Char) := wordRunsAux cs []

def pyIsCased (c : Char) : Bool := pyIsLower c || pyIsUpper c

/-- Python `str.isupper()` on a token. -/
def pyTokIsUpper (tok : List Char) : Bool :=
  tok.any pyIsCased && tok.all (fun c => !pyIsCased c || pyIsUpper c)

def titleAux : Bool → Bool → List Char → Bool
  | _, seen, [] => seen
  | prevCased, seen, c :: rest =>
    if pyIsUpper c then (if prevCased then false else titleAux true true rest)
    else if pyIsLower c then (if prevCased then titleAux true true rest else false)
    else titleAux false seen rest

/-- Python `str.istitle()` on a token. -/
def pyTokIsTitle (tok : List Char) : Bool := titleAux false false tok

/-- `_RE_TERMS.search(hdr)`: some catalog term occurs as a substring
(case-insensitive, no boundaries). -/
def bibTermSub (bibTerms : List String) (hdr : List Char) : Bool :=
  bibTerms.any (fun t => containsSub (lowerL hdr) (lowerL t.data))

/-- `find_bibliography._score_page` (floats modelled exactly as rationals:
weights 0.6/0.4, caps threshold 0.45, cite-ratio scale 0.30, floor 0.45 at
cite ratio ≥ 0.05). -/
def scorePage (bibTerms : List String) (txt : String) : ℚ :=
  if (stripL txt.data).isEmpty then 0
  else
    let hdr := joinSp ((pySplitlines txt.data).take 8)
    let tokens := wordRuns hdr
    let caps := (tokens.filter (fun tok => pyTokIsUpper tok || pyTokIsTitle tok)).length
    let capsDen := if tokens.length = 0 then 1 else tokens.length
    let capsR : ℚ := (caps : ℚ) / (capsDen : ℚ)
    let hdrBonus : ℚ :=
      if bibTermSub bibTerms hdr && decide (capsR ≥ 9/20) then 1 else 3/5
    let lines := ((pySplitlines txt.data).map stripL).filter (fun l => !l.isEmpty)
    let citeCount := (lines.filter isCiteLine).length
    let den := if lines.length = 0 then 1 else lines.length
    let cr : ℚ := (citeCount : ℚ) / (den : ℚ)
    let score := (3/5) * hdrBonus + (2/5) * min (cr / (3/10)) 1
    if cr ≥ 1/20 then max score (9/20) else score

/-! ### `find_bibliography.py` — `_pull_pages`, `_detect_block`, orchestrator -/

/-- Python `range(start, stop, -1)`. -/
def pyRangeDown (start stop : Int) : List Int :=
  (List.range (start - stop).toNat).map (fun k => start - (k : Int))

/-- `_pull_pages`: head pages (`math.ceil(n*head)` of them) then tail pages
descending from the last; loading a page outside the document raises. -/
def pullPages (doc : PdfDoc) (head tail : ℚ) : Except String (List (Int × String)) :=
  let n := doc.pages.length
  let headN : Int := ⌈(n : ℚ) * head⌉
  let tailN : Int := ⌈(n : ℚ) * tail⌉
  let idxs := (List.range headN.toNat).map (fun k => (k : Int)) ++
    pyRangeDown ((n : Int) - 1) (max (-1) ((n : Int) - tailN - 1))
  if idxs.all (fun i => decide (0 ≤ i) && decide (i < (n : Int))) then
    .ok (idxs.map (fun i => (i, doc.pages.getD i.toNat "")))
  else .error "page index out of range"

def intMinL : List Int → Int
  | [] => 0
  | x :: xs => xs.foldl min x

def intMaxL : List Int → Int
  | [] => 0
  | x :: xs => xs.foldl max x

/-- The scoring-and-selection part of `_evaluate` (oracle absent: the GPT
refinement contributes nothing, exactly as when `openai` is not configured),
followed by the conversion of the winning run to 1-based absolute pages. -/
def evaluateBlock (bibTerms : List String) (pages : List (Int × String)) (boost : ℚ) :
    Except String (Option (Int × Int)) :=
  let scores := pages.map (fun p => scorePage bibTerms p.2)
  match selectInterval scores boost with
  | .error e => .error e
  | .ok none => .ok none
  | .ok (some (a, b)) =>
    let absPages := (List.range' a (b + 1 - a)).map
      (fun i => (pages.getD i (0, "")).1 + 1)
    .ok (some (intMinL absPages, intMaxL absPages))

/-- `_detect_block` (the returned first-page text is dropped: the
orchestrator never uses it): fast head/tail path, then full scan. -/
def detectBlock (bibTerms : List String) (doc : PdfDoc) (head tail boost : ℚ) :
    Except String (Option (Int × Int)) :=
  match pullPages doc head tail with
  | .error e => .error e
  | .ok pgs =>
    match evaluateBlock bibTerms pgs boost with
    | .error e => .error e
    | .ok (some r) => .ok (some r)
    | .ok none =>
      evaluateBlock bibTerms
        ((List.range doc.pages.length).map (fun i => (Int.ofNat i, doc.pages.getD i "")))
        boost

/-- `_RE_BIB_HDR` (match existence, case-insensitive): the heading matches a
bibliography-header alternative at a word boundary. -/
def bibHdrAt (low : List Char) (i : Nat) : Bool :=
  bdryAt low i &&
  (subAt low ("bibliograph").data i ||
   (subAt low ("reference").data i &&
     (bdryAt low (i + 9) ||
      (decide ((low.drop (i + 9)).headD ' ' = 's') && bdryAt low (i + 10)) ||
      (let ws := ((low.drop (i + 9)).takeWhile pyIsWs).length
       decide (1 ≤ ws) && subAt low ("list").data (i + 9 + ws) &&
         bdryAt low (i + 9 + ws + 4)))) ||
   (subAt low ("works").data i &&
     (let ws := ((low.drop (i + 5)).takeWhile pyIsWs).length
      decide (1 ≤ ws) && subAt low ("cited").data (i + 5 + ws) &&
        bdryAt low (i + 5 + ws + 5))) ||
   (subAt low ("literaturverzeichnis").data i && bdryAt low (i + 20)) ||
   (subAt low ("quellen").data i &&
     ((subAt low ("verzeichnis").data (i + 7) && bdryAt low (i + 18)) ||
      (subAt low (" und literatur").data (i + 7) && bdryAt low (i + 21)) ||
      bdryAt low (i + 7))))

def bibHdrHit (txt : String) : Bool :=
  (List.range (txt.data.length + 1)).any (bibHdrAt (lowerL txt.data))

/-- `find_bibliography.detect_bibliography` (public API): the cascade
ToC-jackpot → keyword block → heading fonts (with the `_detect_block`
tightening call at `head=0.0, tail=0.0`) → full heuristic. -/
def detectBibliography (cfg : TermConfig) (doc : PdfDoc)
    (kwMinBlock : Int) (head tail boost : ℚ) :
    Except String (Option (Int × Int)) :=
  match scanPdfToc doc with
  | .error e => .error e
  | .ok (tocPg, tocLines) =>
    let bib := (bibFromToc tocLines).getD 0
    if bib ≠ 0 then .ok (some (bib, bib))
    else
      let stage3 := detectBlock cfg.bibTerms doc head tail boost
      let kwPages := analysePdf cfg.kwTerms doc
      let afterKw : Option (Int × Int) :=
        match kwPages with
        | [] => none
        | p :: ps =>
          let best := maxByLen (kwRunsAux ps [p] [])
          if (best.length : Int) ≥ kwMinBlock then some (best.headD 0, best.getLastD 0)
          else none
      match afterKw with
      | some r => .ok (some r)
      | none =>
        match doc.chapters with
        | none => stage3
        | some chs =>
          let tocBarrier := tocPg.getD 0
          let bibHdrs := chs.filter (fun h => bibHdrHit h.text && decide (h.page > tocBarrier))
          if bibHdrs.isEmpty then stage3
          else
            let first := intMinL (bibHdrs.map (fun h => h.page))
            match detectBlock cfg.bibTerms doc 0 0 boost with
            | .error e => .error e
            | .ok (some (a, b)) =>
              if a ≤ first ∧ first ≤ b then .ok (some (a, b)) else .ok (some (first, first))
            | .ok none => .ok (some (first, first))

/-! ### term-catalog loading (C2) -/

/-- The hard-coded development fallback of `find_bibliography.BIB_TERMS`. -/
def FALLBACK_BIB_TERMS : List String :=
  ["references", "bibliography", "literatur", "literaturverzeichnis",
   "works cited", "literature cited", "quellen"]

/-- The CSV resource `bibliography_terms.csv` as parsed rows of cells
(`none` = file absent). -/
structure TermCsv where
  rows : List (List String)

def dedupStr : List String → List String → List String
  | _, [] => []
  | seen, x :: xs =>
    if seen.contains x then dedupStr seen xs else x :: dedupStr (x :: seen) xs

/-- `find_bibliography.py` lines 68–81: `BIB_TERMS` — the set of stripped,
lowercased, non-empty cells when the CSV exists, and the hard-coded
development fallback set when it does not (no error). -/
def loadBibTerms : Option TermCsv → List String
  | some csv =>
    dedupStr []
      ((csv.rows.flatten.map (fun s => String.mk (lowerL (stripL s.data)))).filter
        (fun s => s ≠ ""))
  | none => FALLBACK_BIB_TERMS

/-- `keyword_hits.py` lines 57–68: `TERMS` — `sys.exit` when the CSV is
absent; otherwise the stripped `term`-column cells of the truthy rows
(`csv.DictReader`), and `sys.exit` again when no term results. -/
def loadKwTerms : Option TermCsv → Except String (List String)
  | none => .error "bibliography_terms.csv fehlt neben dem Skript!"
  | some csv =>
    match csv.rows with
    | [] => .error "bibliography_terms.csv leer oder Spaltenname ≠ term"
    | hdr :: body =>
      let idx := hdr.findIdx? (fun c => c == "term")
      let terms := body.filterMap (fun row =>
        match idx with
        | some j =>
          match row[j]? with
          | some cell => if cell ≠ "" then some (String.mk (stripL cell.data)) else none
          | none => none
        | none => none)
      if terms.isEmpty then .error "bibliography_terms.csv leer oder Spaltenname ≠ term"
      else .ok terms

/-- Module initialisation of `find_bibliography.py`: `BIB_TERMS` is bound
first (lines 68–81, silent fallback), then the module-level import of
`keyword_hits` (line 256) runs that module's CSV load, which exits the
process when the catalog is absent. -/
def findBibliographyInit (csv : Option TermCsv) : Except String TermConfig :=
  let bib := loadBibTerms csv
  match loadKwTerms csv with
  | .error e => .error e
  | .ok kw => .ok ⟨bib, kw⟩

/-! ### Concrete documents used when exercising the detector cascade -/

/-- Term configuration whose two catalogs are the single term `references`. -/
def CFG_C1 : TermConfig := ⟨["references"], ["references"]⟩

/-- A three-page document whose first page is a table of contents whose
bibliography row carries the (out-of-range) trailing number 250. -/
def DOC_C1_X : PdfDoc :=
  ⟨["Contents\nBibliography .......... 250", "", ""], [], none⟩

/-- A three-page document that misses the ToC stage and whose pages 2 and 3
hit the keyword catalog. -/
def DOC_C1_W : PdfDoc :=
  ⟨["alpha", "references x", "references y"], [], none⟩

/-! ## `ref_parser.py` — utility normalisation -/

/-- Descending list `[n, n-1, …, 1]` — the candidate order of a greedy
bounded repetition. -/
def descRange : Nat → List Nat
  | 0 => []
  | n + 1 => (n + 1) :: descRange n

/-- Descending candidates including the empty repetition: `[n, …, 1, 0]`. -/
def descRange0 (n : Nat) : List Nat := descRange n ++ [0]

/-- `k` leading characters exist and are all digits (`\d{k}` at the head). -/
def dRun (cs : List Char) (k : Nat) : Bool :=
  decide ((cs.take k).length = k) && (cs.take k).all pyIsDigit

/-- The character class of the first substitution of `fix_ws`:
`[ \t\u00A0\u2000-\u200B]`. -/
def fixWsClass1 (c : Char) : Bool :=
  c == ' ' || c == '\t' || c == '\u00A0' || ('\u2000' ≤ c && c ≤ '\u200B')

/-- `re.sub(r"[ \t\u00A0\u2000-\u200B]+", " ", s)`: each maximal run of the
class becomes a single space (`inRun` = previous char was in the class). -/
def fixWs1Aux : Bool → List Char → List Char
  | _, [] => []
  | inRun, c :: cs =>
    if fixWsClass1 c then
      if inRun then fixWs1Aux true cs else ' ' :: fixWs1Aux true cs
    else c :: fixWs1Aux false cs

/-- `re.sub(r"\s{2,}", " ", s)`: runs of ≥ 2 whitespace characters collapse
to a single space, an isolated whitespace char is kept verbatim (`pending` =
one whitespace char seen, `swallow` = inside an already-collapsed run). -/
def fixWs2Aux : List Char → Option Char → Bool → List Char
  | [], none, _ => []
  | [], some p, _ => [p]
  | c :: cs, none, false =>
    if pyIsWs c then fixWs2Aux cs (some c) false else c :: fixWs2Aux cs none false
  | c :: cs, none, true =>
    if pyIsWs c then fixWs2Aux cs none true else c :: fixWs2Aux cs none false
  | c :: cs, some p, _ =>
    if pyIsWs c then ' ' :: fixWs2Aux cs none true else p :: c :: fixWs2Aux cs none false

/-- `ref_parser.fix_ws`. -/
def fixWs (cs : List Char) : List Char :=
  stripL (fixWs2Aux (fixWs1Aux false cs) none false)

/-- Python `str.replace` for a two-character pattern (used for `"--"`). -/
def replace2 (a b : Char) (rep : List Char) : List Char → List Char
  | [] => []
  | [c] => [c]
  | c1 :: c2 :: cs =>
    if c1 == a && c2 == b then rep ++ replace2 a b rep cs
    else c1 :: replace2 a b rep (c2 :: cs)

/-- One attempt of `(?<=\d)\s*-\s*(?=\d)` at the current position (the
lookbehind digit has already been checked): returns the consumed length. -/
def dashMatchLen (cs : List Char) : Option Nat :=
  let w1 := (cs.takeWhile pyIsWs).length
  match cs.drop w1 with
  | '-' :: rest =>
    let w2 := (rest.takeWhile pyIsWs).length
    match rest.drop w2 with
    | d :: _ => if pyIsDigit d then some (w1 + 1 + w2) else none
    | [] => none
  | _ => none

/-- The scan of `re.sub(r"(?<=\d)\s*-\s*(?=\d)", "–", s)`; after a match the
scan resumes at the digit that satisfied the lookahead, whose predecessor in
the original string is never a digit. -/
def dashSubAux : Nat → Bool → List Char → List Char
  | 0, _, cs => cs
  | _ + 1, _, [] => []
  | fuel + 1, prevDigit, c :: cs =>
    if prevDigit then
      match dashMatchLen (c :: cs) with
      | some k => '–' :: dashSubAux fuel false ((c :: cs).drop k)
      | none => c :: dashSubAux fuel (pyIsDigit c) cs
    else c :: dashSubAux fuel (pyIsDigit c) cs

/-- `ref_parser.norm_dashes` (the `"–"→"–"` and `"—"→"—"` replaces are
identities and are omitted). -/
def normDashes (cs : List Char) : List Char :=
  let t := replace2 '-' '-' ['—'] cs
  dashSubAux (t.length + 1) false t

/-- The five single-character replaces of `ref_parser.norm_quotes`
(straight double quote →“, `„→“`, `‟→“`, `”→”` (identity), `‚→‘`). -/
def normQuoteChar (c : Char) : Char :=
  if c == '"' then '“'
  else if c == '„' then '“'
  else if c == '‟' then '“'
  else if c == '‚' then '‘'
  else c

def normQuotes (cs : List Char) : List Char := cs.map normQuoteChar

/-- `ref_parser.clean`.  `unicodedata.normalize("NFC", s)` is the identity on
every string this repository feeds the parser (NFC-normalised text) and is
modelled as the identity. -/
def pyClean (cs : List Char) : List Char := fixWs (normQuotes (normDashes cs))

/-! ## `ref_parser.py` — generic regex scan machinery -/

/-- The scan of `re.sub`: at each position try `matchAt` (which returns the
consumed length, always ≥ 1 for the patterns modelled here); on a match emit
the replacement and resume at the match end. -/
def reSubAux (matchAt : List Char → Nat → Option Nat) (rep : List Char)
    (cs : List Char) : Nat → Nat → List Char
  | _, 0 => []
  | i, fuel + 1 =>
    match matchAt cs i with
    | some n => rep ++ reSubAux matchAt rep cs (i + n) fuel
    | none =>
      match cs.drop i with
      | [] => []
      | c :: _ => c :: reSubAux matchAt rep cs (i + 1) fuel

def reSubAll (matchAt : List Char → Nat → Option Nat) (rep : List Char)
    (cs : List Char) : List Char :=
  reSubAux matchAt rep cs 0 (cs.length + 1)

/-- `re.search`: the leftmost position where `matchAt` succeeds, paired with
its payload. -/
def searchIdx {α : Type} (matchAt : List Char → Nat → Option α)
    (cs : List Char) : Option (Nat × α) :=
  (List.range (cs.length + 1)).findSome? (fun i => (matchAt cs i).map (fun a => (i, a)))

/-- `ref_parser.strip_and_capture` (the payload of `matchAt` is the consumed
length, so `group(0)` is the consumed span). -/
def stripAndCapture (matchAt : List Char → Nat → Option Nat) (cs : List Char) :
    Option (List Char) × List Char :=
  match searchIdx matchAt cs with
  | none => (none, cs)
  | some (i, n) =>
    (some ((cs.drop i).take n),
     fixWs (stripL (cs.take i) ++ ' ' :: stripL (cs.drop (i + n))))

/-! ## `ref_parser.py` — the year, DOI, ISBN and URL regexes -/

/-- The body of `RE_YEAR = r"\b(1[6-9]\d{2}|20\d{2}|21\d{2})\b"` on a 4-char
candidate (each alternative forces all four characters to be digits; the
digit conjuncts are stated explicitly for the proofs). -/
def yearDigits4 (ds : List Char) : Bool :=
  match ds with
  | [c1, c2, c3, c4] =>
    ((c1 == '1' && decide ('6' ≤ c2) && decide (c2 ≤ '9')) ||
     (c1 == '2' && (c2 == '0' || c2 == '1'))) &&
    pyIsDigit c1 && pyIsDigit c2 && pyIsDigit c3 && pyIsDigit c4
  | _ => false

/-- A `RE_YEAR` match at position `i`. -/
def yearTokenAt (cs : List Char) (i : Nat) : Bool :=
  bdryAt cs i && yearDigits4 ((cs.drop i).take 4) && bdryAt cs (i + 4)

/-- The scan of `RE_YEAR.findall`: leftmost matches, resuming after each
(4-character) match. -/
def yearScanAux (cs : List Char) : Nat → Nat → List Nat
  | _, 0 => []
  | i, fuel + 1 =>
    if yearTokenAt cs i then i :: yearScanAux cs (i + 4) fuel
    else if i < cs.length then yearScanAux cs (i + 1) fuel
    else []

def findallYears (cs : List Char) : List Nat := yearScanAux cs 0 (cs.length + 1)

/-- `ref_parser.extract_year`: `int(RE_YEAR.findall(s)[-1])`, `None` when the
list is empty. -/
def extractYear (cs : List Char) : Option Int :=
  match (findallYears cs).getLast? with
  | some i => some (Int.ofNat (natOfDigits ((cs.drop i).take 4)))
  | none => none

/-- Specification-side year extraction, following the spec words: the value
of the LAST (rightmost) boundary-delimited 4-digit year-like token, absent
when there is none. -/
def lastYearSpec (cs : List Char) : Option Int :=
  match ((List.range (cs.length + 1)).filter (yearTokenAt cs)).getLast? with
  | some i => some (Int.ofNat (natOfDigits ((cs.drop i).take 4)))
  | none => none

/-- `[-._;()/:A-Z0-9]` of `RE_DOI` under `re.I`. -/
def doiClassChar (c : Char) : Bool :=
  c == '-' || c == '.' || c == '_' || c == ';' || c == '(' || c == ')' ||
  c == '/' || c == ':' || asciiUpper c || asciiLower c || pyIsDigit c

/-- `RE_DOI = r"\b10\.\d{4,9}/[-._;()/:A-Z0-9]+\b"` (`re.I`) at position
`i`, greedy with backtracking on both bounded repetitions. -/
def doiMatchAt (cs : List Char) (i : Nat) : Option Nat :=
  if bdryAt cs i then
    match cs.drop i with
    | '1' :: '0' :: '.' :: rest =>
      (descRange 9).findSome? (fun d =>
        if decide (d ≥ 4) && dRun rest d then
          match rest.drop d with
          | '/' :: tail =>
            let m := (tail.takeWhile doiClassChar).length
            (descRange m).findSome? (fun k =>
              if bdryAt tail k then some (3 + d + 1 + k) else none)
          | _ => none
        else none)
    | _ => none
  else none

/-- `[-\s]?` of `RE_ISBN`: greedy candidates for the optional separator. -/
def sepCands (cs : List Char) : List Nat :=
  match cs with
  | c :: _ => if c == '-' || pyIsWs c then [1, 0] else [0]
  | [] => [0]

def seg17 : List Nat := descRange 7

/-- `[\dX]\b` at the head (the consumed character is a word character, so
the boundary holds iff the next character is not one). -/
def isbnSegD (cs : List Char) : Option Nat :=
  match cs with
  | d :: rest =>
    if (pyIsDigit d || d == 'X') && !(isWordOpt rest.head?) then some 1 else none
  | [] => none

/-- `\d{1,7}[-\s]?[\dX]\b` at the head. -/
def isbnSegC (cs : List Char) : Option Nat :=
  seg17.findSome? (fun c =>
    if dRun cs c then
      (sepCands (cs.drop c)).findSome? (fun t =>
        (isbnSegD ((cs.drop c).drop t)).map (fun d => c + t + d))
    else none)

/-- `\d{1,7}[-\s]?` then the C segment. -/
def isbnSegB (cs : List Char) : Option Nat :=
  seg17.findSome? (fun b =>
    if dRun cs b then
      (sepCands (cs.drop b)).findSome? (fun t =>
        (isbnSegC ((cs.drop b).drop t)).map (fun r => b + t + r))
    else none)

/-- `\d{1,5}[-\s]?` then the B segment — the full second alternative of
`RE_ISBN` minus its leading `\b`. -/
def isbnSegA (cs : List Char) : Option Nat :=
  (descRange 5).findSome? (fun a =>
    if dRun cs a then
      (sepCands (cs.drop a)).findSome? (fun t =>
        (isbnSegB ((cs.drop a).drop t)).map (fun r => a + t + r))
    else none)

/-- The first alternative of `RE_ISBN`: `97[89][-\s]?` then the A segment
body (`\d{1,5}[-\s]?\d{1,7}[-\s]?\d{1,7}[-\s]?[\dX]`). -/
def isbnAlt1At (cs : List Char) : Option Nat :=
  match cs with
  | '9' :: '7' :: c3 :: rest =>
    if c3 == '8' || c3 == '9' then
      (sepCands rest).findSome? (fun t =>
        (isbnSegA (rest.drop t)).map (fun r => 3 + t + r))
    else none
  | _ => none

/-- `RE_ISBN` at position `i`: the 978/979 alternative is tried before the
bare-number alternative (which therefore also matches any standalone 4-digit
number such as a year). -/
def isbnMatchAt (cs : List Char) (i : Nat) : Option Nat :=
  if bdryAt cs i then
    match isbnAlt1At (cs.drop i) with
    | some n => some n
    | none => isbnSegA (cs.drop i)
  else none

/-- `RE_URL = r"https?://\S+"` (`re.I`) at position `i` (no word boundary;
the optional `s` is greedy, `\S+` takes the maximal non-whitespace run). -/
def urlMatchAt (cs : List Char) (i : Nat) : Option Nat :=
  let t := cs.drop i
  if decide (lowerL (t.take 4) = ['h', 't', 't', 'p']) then
    let trySep : Nat → List Char → Option Nat := fun s rest =>
      if decide (rest.take 3 = [':', '/', '/']) then
        let m := ((rest.drop 3).takeWhile (fun c => !pyIsWs c)).length
        if m ≥ 1 then some (4 + s + 3 + m) else none
      else none
    match t.drop 4 with
    | c :: rest2 =>
      if pyToLower c == 's' then
        match trySep 1 rest2 with
        | some n => some n
        | none => trySep 0 (t.drop 4)
      else trySep 0 (t.drop 4)
    | [] => trySep 0 (t.drop 4)
  else none

/-! ## `ref_style_detector.py` — signal regexes and scoring -/

/-- `\([12]\d{3}\)` at position `i`. -/
def parenYearAt (cs : List Char) (i : Nat) : Option Nat :=
  match cs.drop i with
  | '(' :: c1 :: c2 :: c3 :: c4 :: ')' :: _ =>
    if (c1 == '1' || c1 == '2') && pyIsDigit c2 && pyIsDigit c3 && pyIsDigit c4 then
      some 6
    else none
  | _ => none

/-- `[A-Z][A-Za-z\-]+[, ]+\d{4}\b` at position `i` (the three character
classes are pairwise disjoint, so each greedy run is forced). -/
def authorYearAt (cs : List Char) (i : Nat) : Option Nat :=
  match cs.drop i with
  | c :: rest =>
    if asciiUpper c then
      let l := (rest.takeWhile (fun d => asciiUpper d || asciiLower d || d == '-')).length
      if l ≥ 1 then
        let rest2 := rest.drop l
        let sep := (rest2.takeWhile (fun d => d == ',' || d == ' ')).length
        if sep ≥ 1 then
          let rest3 := rest2.drop sep
          if dRun rest3 4 && !(isWordOpt (rest3.drop 4).head?) then
            some (1 + l + sep + 4)
          else none
        else none
      else none
    else none
  | [] => none

/-- `^\s*\d+\.\s` (anchored at the start). -/
def numDotStartHit (cs : List Char) : Bool :=
  let r := cs.drop ((cs.takeWhile pyIsWs).length)
  let d := (r.takeWhile pyIsDigit).length
  decide (d ≥ 1) &&
    (match r.drop d with
     | '.' :: c :: _ => pyIsWs c
     | _ => false)

/-- `RE_BRACKETED = r"^\s*\[\d+\]\s*"` (anchored at the start). -/
def bracketNumHit (cs : List Char) : Bool :=
  match cs.drop ((cs.takeWhile pyIsWs).length) with
  | '[' :: r =>
    let d := (r.takeWhile pyIsDigit).length
    decide (d ≥ 1) && decide ((r.drop d).head? = some ']')
  | _ => false

/-- `[A-Za-zÄÖÜäöüß.\- ]`, the tail class of the place/publisher group. -/
def pubClass1 (c : Char) : Bool :=
  asciiUpper c || asciiLower c ||
  ['Ä', 'Ö', 'Ü', 'ä', 'ö', 'ü', 'ß', '.', '-', ' '].contains c

def upStart (c : Char) : Bool := asciiUpper c || ['Ä', 'Ö', 'Ü'].contains c

/-- `RE_PLACE_PUB = r"\b[A-ZÄÖÜ][A-Za-zÄÖÜäöüß.\- ]{2,30}\s*:\s*[A-Z][^\d,;]{2,}\b"`
at position `i` (detector variant). -/
def placePubDetAt (cs : List Char) (i : Nat) : Option Nat :=
  if bdryAt cs i then
    match cs.drop i with
    | c :: rest =>
      if upStart c then
        let r := min 30 ((rest.takeWhile pubClass1).length)
        (descRange r).findSome? (fun k =>
          if k ≥ 2 then
            let r2 := rest.drop k
            let w1 := (r2.takeWhile pyIsWs).length
            match r2.drop w1 with
            | ':' :: r3 =>
              let w2 := (r3.takeWhile pyIsWs).length
              match r3.drop w2 with
              | c2 :: r4 =>
                if asciiUpper c2 then
                  let m := (r4.takeWhile (fun d => !pyIsDigit d && !(d == ',') && !(d == ';'))).length
                  (descRange m).findSome? (fun j =>
                    if j ≥ 2 && bdryAt r4 j then
                      some (1 + k + w1 + 1 + w2 + 1 + j)
                    else none)
                else none
              | [] => none
            | _ => none
          else none)
      else none
    | [] => none
  else none

/-- `\b(in|in:|dans|en:)\b` (`re.I`): the alternatives in source order
(after `in` the boundary always holds before `:`, so `in:` never wins). -/
def inCands : List (List Char) :=
  [['i', 'n'], ['i', 'n', ':'], ['d', 'a', 'n', 's'], ['e', 'n', ':']]

def inMatchAt (cs : List Char) (i : Nat) : Option Nat :=
  if bdryAt cs i then
    inCands.findSome? (fun w =>
      if decide (lowerL ((cs.drop i).take w.length) = w) && bdryAt cs (i + w.length) then
        some w.length
      else none)
  else none

/-- `RE_ED = r"\b(ed\.?|eds\.?|éd\.?|hg\.|hrsg\.|herausg\.)\b"` (`re.I`):
alternatives in order, the optional dot greedy (with dot before without). -/
def edCands : List (List Char) :=
  [['e', 'd', '.'], ['e', 'd'], ['e', 'd', 's', '.'], ['e', 'd', 's'],
   ['é', 'd', '.'], ['é', 'd'], ['h', 'g', '.'], ['h', 'r', 's', 'g', '.'],
   ['h', 'e', 'r', 'a', 'u', 's', 'g', '.']]

def edMatchAt (cs : List Char) (i : Nat) : Option Nat :=
  if bdryAt cs i then
    edCands.findSome? (fun w =>
      if decide (lowerL ((cs.drop i).take w.length) = w) && bdryAt cs (i + w.length) then
        some w.length
      else none)
  else none

def dashChar (c : Char) : Bool := c == '-' || c == '–' || c == '—'

/-- The shared page-number core `\d{1,5}\s*(?:[-–—]\s*\d{1,5})?\b` matched
at the head of `t`, with Python backtracking order: digits greedy, then the
optional dash part (only reachable with the whitespace run fully consumed),
then the empty branch with the inner `\s*` backtracking from greedy — so the
consumed span (= the capture group) can end in whitespace. -/
def numRangeAt (t : List Char) : Option Nat :=
  (descRange 5).findSome? (fun a =>
    if dRun t a then
      let r1 := t.drop a
      let w := (r1.takeWhile pyIsWs).length
      let dashBranch : Option Nat :=
        match r1.drop w with
        | d :: r2 =>
          if dashChar d then
            let w2 := (r2.takeWhile pyIsWs).length
            let r3 := r2.drop w2
            (descRange 5).findSome? (fun b =>
              if dRun r3 b && bdryAt r3 b then some (a + w + 1 + w2 + b) else none)
          else none
        | [] => none
      match dashBranch with
      | some n => some n
      | none =>
        (descRange0 w).findSome? (fun j =>
          if bdryAt t (a + j) then some (a + j) else none)
    else none)

/-- Parser `RE_RANGE = r"\b(\d{1,5}\s*(?:[-–—]\s*\d{1,5})?)\b"`: group(1) is
the consumed core. -/
def rangeMatchAt (cs : List Char) (i : Nat) : Option Nat :=
  if bdryAt cs i then numRangeAt (cs.drop i) else none

/-- Parser `RE_PAGES = r"\b(pp\.?|S\.?)\s*(\d{1,5}\s*(?:[-–—]\s*\d{1,5})?)\b"`
(`re.I`): payload `(keyword length, whitespace length, core length)`, so
group(1) and group(2) are the corresponding spans. -/
def pagesKwCands : List (List Char) :=
  [['p', 'p', '.'], ['p', 'p'], ['s', '.'], ['s']]

def pagesMatchAt (cs : List Char) (i : Nat) : Option (Nat × Nat × Nat) :=
  if bdryAt cs i then
    pagesKwCands.findSome? (fun w =>
      if decide (lowerL ((cs.drop i).take w.length) = w) then
        let r1 := (cs.drop i).drop w.length
        let ws := (r1.takeWhile pyIsWs).length
        (numRangeAt (r1.drop ws)).map (fun n => (w.length, ws, n))
      else none)
  else none

/-- Detector `RE_PAGES` (`pp\.?|S\.?|pages?` keyword set). -/
def pagesDetCands : List (List Char) :=
  [['p', 'p', '.'], ['p', 'p'], ['s', '.'], ['s'],
   ['p', 'a', 'g', 'e', 's'], ['p', 'a', 'g', 'e']]

def pagesDetAt (cs : List Char) (i : Nat) : Option Nat :=
  if bdryAt cs i then
    pagesDetCands.findSome? (fun w =>
      if decide (lowerL ((cs.drop i).take w.length) = w) then
        let r1 := (cs.drop i).drop w.length
        let ws := (r1.takeWhile pyIsWs).length
        (numRangeAt (r1.drop ws)).map (fun n => w.length + ws + n)
      else none)
  else none

/-- Detector `RE_RANGE = r"\b\d{1,5}\s*[-–—]\s*\d{1,5}\b"` (dash required). -/
def rangeDetAt (cs : List Char) (i : Nat) : Option Nat :=
  if bdryAt cs i then
    let t := cs.drop i
    (descRange 5).findSome? (fun a =>
      if dRun t a then
        let r1 := t.drop a
        let w := (r1.takeWhile pyIsWs).length
        match r1.drop w with
        | d :: r2 =>
          if dashChar d then
            let w2 := (r2.takeWhile pyIsWs).length
            let r3 := r2.drop w2
            (descRange 5).findSome? (fun b =>
              if dRun r3 b && bdryAt r3 b then some (a + w + 1 + w2 + b) else none)
          else none
        | [] => none
      else none)
  else none

/-- `RE_VOL_ISS = r"\b(\d{1,4})\s*\(\s*(\d+)\s*\)\b"`: payload
`(group(1), group(2))`.  The trailing `\b` sits between `)` and the next
character, so it demands a WORD character after the closing parenthesis. -/
def volIssAt (cs : List Char) (i : Nat) : Option (List Char × List Char) :=
  if bdryAt cs i then
    let t := cs.drop i
    (descRange 4).findSome? (fun a =>
      if dRun t a then
        let r1 := t.drop a
        let w := (r1.takeWhile pyIsWs).length
        match r1.drop w with
        | '(' :: r2 =>
          let w2 := (r2.takeWhile pyIsWs).length
          let r3 := r2.drop w2
          let d := (r3.takeWhile pyIsDigit).length
          if d ≥ 1 then
            let r4 := r3.drop d
            let w3 := (r4.takeWhile pyIsWs).length
            match r4.drop w3 with
            | ')' :: r5 =>
              if isWordOpt r5.head? then some (t.take a, r3.take d) else none
            | _ => none
          else none
        | _ => none
      else none)
  else none

/-- `RE_VOL_ONLY = r"\b(?:vol\.?|Bd\.?)\s*\d{1,4}\b"` (`re.I`). -/
def volKwCands : List (List Char) :=
  [['v', 'o', 'l', '.'], ['v', 'o', 'l'], ['b', 'd', '.'], ['b', 'd']]

def volOnlyAt (cs : List Char) (i : Nat) : Option Nat :=
  if bdryAt cs i then
    volKwCands.findSome? (fun w =>
      if decide (lowerL ((cs.drop i).take w.length) = w) then
        let r1 := (cs.drop i).drop w.length
        let ws := (r1.takeWhile pyIsWs).length
        let t := r1.drop ws
        (descRange 4).findSome? (fun a =>
          if dRun t a && bdryAt t a then some (w.length + ws + a) else none)
      else none)
  else none

/-- `RE_ISSUE = r"\b(?:no\.?|Heft|nr\.)\s*\d+\b"` (`re.I`); `\d+\b` holds
iff the full digit run (≥ 1) is followed by a non-word character. -/
def issueKwCands : List (List Char) :=
  [['n', 'o', '.'], ['n', 'o'], ['h', 'e', 'f', 't'], ['n', 'r', '.']]

def issueAt (cs : List Char) (i : Nat) : Option Nat :=
  if bdryAt cs i then
    issueKwCands.findSome? (fun w =>
      if decide (lowerL ((cs.drop i).take w.length) = w) then
        let r1 := (cs.drop i).drop w.length
        let ws := (r1.takeWhile pyIsWs).length
        let t := r1.drop ws
        let d := (t.takeWhile pyIsDigit).length
        if decide (d ≥ 1) && bdryAt t d then some (w.length + ws + d) else none
      else none)
  else none

/-- `r"\b(thesis|diss\.?|dissertation)\b"` (`re.I`). -/
def thesisCands : List (List Char) :=
  [['t', 'h', 'e', 's', 'i', 's'], ['d', 'i', 's', 's', '.'], ['d', 'i', 's', 's'],
   ['d', 'i', 's', 's', 'e', 'r', 't', 'a', 't', 'i', 'o', 'n']]

def thesisAt (cs : List Char) (i : Nat) : Option Nat :=
  if bdryAt cs i then
    thesisCands.findSome? (fun w =>
      if decide (lowerL ((cs.drop i).take w.length) = w) && bdryAt cs (i + w.length) then
        some w.length
      else none)
  else none

/-- `r"\bproceedings|conf\.|konferenz|tagung\b"` (`re.I`): the anchors bind
only to the first and last alternative respectively — `conf.` and `konferenz`
match as bare substrings. -/
def proceedingsHit (cs : List Char) : Bool :=
  (List.range (cs.length + 1)).any (fun i =>
    (bdryAt cs i && decide (lowerL ((cs.drop i).take 11) = ("proceedings").data)) ||
    decide (lowerL ((cs.drop i).take 5) = ("conf.").data) ||
    decide (lowerL ((cs.drop i).take 9) = ("konferenz").data) ||
    (decide (lowerL ((cs.drop i).take 6) = ("tagung").data) && bdryAt cs (i + 6)))

/-- `ref_style_detector.detect_style_and_type` → `(style_family, entry_type)`.
The `url`, `doi` and `isbn` signals are computed by the source but influence
neither the style scores nor the entry type and are omitted. -/
def detectStyleAndType (raw : List Char) : String × String :=
  let s := joinSp (pySplitWs raw)
  let sigYear := (List.range (s.length + 1)).any (yearTokenAt s)
  let _sigPagesKw := (searchIdx pagesDetAt s).isSome
  let sigRange := (searchIdx rangeDetAt s).isSome
  let sigVolIss := (searchIdx volIssAt s).isSome
  let sigVolKw := (searchIdx volOnlyAt s).isSome
  let _sigIssue := (searchIdx issueAt s).isSome
  let sigIn := (searchIdx inMatchAt s).isSome
  let sigEd := (searchIdx edMatchAt s).isSome
  let sigPlacePub := (searchIdx placePubDetAt s).isSome
  let sigBracket := bracketNumHit s
  let scoreAY :=
    (if (searchIdx parenYearAt s).isSome || (searchIdx authorYearAt s).isSome then 2 else 0) +
    (if sigYear then 1 else 0)
  let scoreNum := if sigBracket || numDotStartHit s then 2 else 0
  let scoreNote := if sigEd && sigPlacePub && sigYear then 2 else 0
  let scoreMla := if (sigPlacePub && s.contains '”') || s.contains '"' then 2 else 0
  let best := [("numeric", scoreNum), ("note-chicago", scoreNote), ("mla-like", scoreMla)].foldl
    (fun (b : String × Nat) p => if p.2 > b.2 then p else b) ("author-year", scoreAY)
  let styleFam := if best.2 = 0 then "other" else best.1
  let entry :=
    if sigIn && sigEd then "chapter"
    else if sigVolIss || (sigVolKw && sigRange) then "journal-article"
    else if sigPlacePub && !sigIn then "book"
    else if (searchIdx thesisAt s).isSome then "thesis"
    else if proceedingsHit s then "proceedings"
    else "other"
  (styleFam, entry)

/-! ## `ref_parser.py` — people splitting and the parser proper -/

/-- Parser `RE_PLACE_PUB_COLON = r"([A-ZÄÖÜ][A-Za-zÄÖÜäöüß.\- ]{2,40})\s*:\s*([^,;]{2,100})"`
at position `i`: payload `(group(1), group(2))`. -/
def placePubColonAt (cs : List Char) (i : Nat) : Option (List Char × List Char) :=
  match cs.drop i with
  | c :: rest =>
    if upStart c then
      let r := min 40 ((rest.takeWhile pubClass1).length)
      (descRange r).findSome? (fun k =>
        if k ≥ 2 then
          let r2 := rest.drop k
          let w1 := (r2.takeWhile pyIsWs).length
          match r2.drop w1 with
          | ':' :: r3 =>
            let w2 := (r3.takeWhile pyIsWs).length
            let r4 := r3.drop w2
            let m := min 100 ((r4.takeWhile (fun d => !(d == ',') && !(d == ';'))).length)
            if m ≥ 2 then some (c :: rest.take k, r4.take m) else none
          | _ => none
        else none)
    else none
  | [] => none

/-- Parser `RE_PUB_PLACE_COMMA = r"([^,:;]{3,100})\s*,\s*([A-ZÄÖÜ][A-Za-zÄÖÜäöüß.\- ]{2,40})$"`
at position `i`: the `$` anchor forces group(2) to span exactly the remaining
suffix. -/
def pubPlaceCommaAt (cs : List Char) (i : Nat) : Option (List Char × List Char) :=
  let t := cs.drop i
  let r := min 100 ((t.takeWhile (fun d => !(d == ',') && !(d == ':') && !(d == ';'))).length)
  (descRange r).findSome? (fun k =>
    if k ≥ 3 then
      let r2 := t.drop k
      let w1 := (r2.takeWhile pyIsWs).length
      match r2.drop w1 with
      | ',' :: r3 =>
        let r4 := r3.drop ((r3.takeWhile pyIsWs).length)
        match r4 with
        | c2 :: r5 =>
          if upStart c2 && r5.all pubClass1 && decide (2 ≤ r5.length) && decide (r5.length ≤ 40) then
            some (t.take k, r4)
          else none
        | [] => none
      | _ => none
    else none)

/-- `ref_parser.parse_place_publisher` → `(place, publisher)`. -/
def parsePlacePublisher (cs : List Char) : Option (List Char) × Option (List Char) :=
  match searchIdx placePubColonAt cs with
  | some (_, g1, g2) => (some (stripL g1), some (stripL g2))
  | none =>
    match searchIdx pubPlaceCommaAt cs with
    | some (_, g1, g2) => (some (stripL g2), some (stripL g1))
    | none => (none, none)

/-- `re.search(r"“([^”]{3,200})”", s)` of `extract_title_quoted`: the leftmost
`“` whose following `”`-free run has length 3–200 and is closed; the returned
title is `group(1).strip()`.  (The remainder string the source also returns is
never used by the caller and is omitted.) -/
def extractTitleQuoted (cs : List Char) : Option (List Char) :=
  (List.range cs.length).findSome? (fun i =>
    if cs.getD i ' ' == '“' then
      let run := ((cs.drop (i + 1)).takeWhile (fun c => !(c == '”'))).length
      if decide (3 ≤ run) && decide (run ≤ 200) && decide (run < (cs.drop (i + 1)).length) then
        some (stripL ((cs.drop (i + 1)).take run))
      else none
    else none)

/-- First index at which `pat` occurs in `hay` (Python `str.find` / the cut
point of `str.split(pat)[0]`). -/
def subIdx (hay pat : List Char) : Option Nat :=
  (List.range (hay.length + 1)).find? (fun i => subAt hay pat i)

/-- `\s*(;|&| und | and | y )\s*` (`re.I`) at position `i`.  With `W` the
whitespace run at `i`: `;`/`&` match after the full run; the space-led word
alternatives can only match with the run backtracked by one character, which
must then be a literal space. -/
def sepWordCands : List (List Char) := [['u', 'n', 'd'], ['a', 'n', 'd'], ['y']]

def sub1MatchAt (cs : List Char) (i : Nat) : Option Nat :=
  let t := cs.drop i
  let w := (t.takeWhile pyIsWs).length
  let rest := t.drop w
  match rest.head? with
  | some ';' => some (w + 1 + ((rest.drop 1).takeWhile pyIsWs).length)
  | some '&' => some (w + 1 + ((rest.drop 1).takeWhile pyIsWs).length)
  | _ =>
    if decide (w ≥ 1) && (t.getD (w - 1) 'x' == ' ') then
      sepWordCands.findSome? (fun wd =>
        if decide (lowerL (rest.take wd.length) = wd) && (rest.getD wd.length 'x' == ' ') then
          some (w + wd.length + 1 + ((rest.drop (wd.length + 1)).takeWhile pyIsWs).length)
        else none)
    else none

/-- `\s*,\s*und\s+|\s*,\s*and\s+` (`re.I`) at position `i`. -/
def sub2MatchAt (cs : List Char) (i : Nat) : Option Nat :=
  let t := cs.drop i
  let w := (t.takeWhile pyIsWs).length
  match (t.drop w).head? with
  | some ',' =>
    let r1 := t.drop (w + 1)
    let w2 := (r1.takeWhile pyIsWs).length
    let r2 := r1.drop w2
    [['u', 'n', 'd'], ['a', 'n', 'd']].findSome? (fun wd =>
      if decide (lowerL (r2.take wd.length) = wd) then
        let tr := ((r2.drop wd.length).takeWhile pyIsWs).length
        if tr ≥ 1 then some (w + 1 + w2 + wd.length + tr) else none
      else none)
  | _ => none

def NAME_PARTICLES : List (List Char) :=
  ["von", "van", "der", "den", "de", "del", "da", "di", "du", "la", "le",
   "zu", "zum", "zur", "y"].map String.data

/-- One chunk of `split_people`: comma form `family, given`; otherwise
whitespace words with the particle rule on `parts[-2]`; an empty word list
reaches `parts[-1]` and raises `IndexError`. -/
def personOfChunk (c : List Char) : Except String Person :=
  if c.contains ',' then
    let pre := c.takeWhile (fun d => !(d == ','))
    .ok ⟨String.mk (stripL pre), String.mk (stripL (c.drop (pre.length + 1)))⟩
  else
    match pySplitWs c with
    | [] => .error "list index out of range"
    | [wd] => .ok ⟨String.mk wd, ""⟩
    | w1 :: w2 :: rest =>
      let parts := w1 :: w2 :: rest
      let fam := parts.getLastD []
      let pen := parts.dropLast.getLastD []
      if NAME_PARTICLES.contains (lowerL pen) then
        .ok ⟨String.mk (pen ++ ' ' :: fam), String.mk (joinSp parts.dropLast.dropLast)⟩
      else
        .ok ⟨String.mk fam, String.mk (joinSp parts.dropLast)⟩

def peopleOfChunks : List (List Char) → Except String (List Person)
  | [] => .ok []
  | c :: rest =>
    match personOfChunk c with
    | .error e => .error e
    | .ok p =>
      match peopleOfChunks rest with
      | .error e => .error e
      | .ok ps => .ok (p :: ps)

/-- `ref_parser.split_people`. -/
def splitPeople (text : List Char) : Except String (List Person) :=
  let t := pyClean text
  let t1 := reSubAll sub1MatchAt [';'] t
  let t2 := reSubAll sub2MatchAt [';'] t1
  let chunks := ((splitOnChar ';' t2).map (stripCharsL [' ', ';', ','])).filter
    (fun c => !c.isEmpty)
  peopleOfChunks chunks

/-- `ref_parser.ParsedRef`. -/
structure ParsedRef where
  style_family : String
  entry_type : String
  authors : List Person
  editors : List Person
  title : String
  container_title : Option String
  publisher : Option String
  publisher_place : Option String
  year : Option Int
  volume : Option String
  issue : Option String
  pages : Option String
  doi : Option String
  isbn : Option String
  url : Option String
deriving DecidableEq, Repr

def CS_STRIP : List Char := [' ', ',', ';', '.']

/-- `re.search(r"[:，]\s*(\d{1,5}\s*(?:[-–—]\s*\d{1,5})?)", s1)` (line 238,
no trailing boundary): group(1) is greedy, so it retains the whitespace run
after the first number when the dash part is absent. -/
def colonPagesAt (cs : List Char) (i : Nat) : Option (List Char) :=
  match cs.drop i with
  | c :: r1 =>
    if c == ':' || c == '，' then
      let w := (r1.takeWhile pyIsWs).length
      let t := r1.drop w
      let a := min 5 ((t.takeWhile pyIsDigit).length)
      if a ≥ 1 then
        let r2 := t.drop a
        let w2 := (r2.takeWhile pyIsWs).length
        let dashPart : Option Nat :=
          match r2.drop w2 with
          | d :: r3 =>
            if dashChar d then
              let w3 := (r3.takeWhile pyIsWs).length
              let b := min 5 (((r3.drop w3).takeWhile pyIsDigit).length)
              if b ≥ 1 then some (a + w2 + 1 + w3 + b) else none
            else none
          | [] => none
        match dashPart with
        | some n => some (t.take n)
        | none => some (t.take (a + w2))
      else none
    else none
  | [] => none

/-- The remainder of `parse_reference` after the style/type detection and the
DOI/ISBN/URL stripping: `s1` is the stripped line, `doi`/`isbn`/`url` the
captured identifiers. -/
def parseRefCore (meta : String × String)
    (doi isbn url : Option (List Char)) (s1 : List Char) :
    Except String ParsedRef :=
  let year := extractYear s1
  let tq := extractTitleQuoted s1
  let leftE : Except String (List Char) :=
    match tq with
    | some _ =>
      match s1.findIdx? (fun c => c == '“') with
      | some i => .ok (stripL (s1.take i))
      | none => .error "substring not found"
    | none => .ok s1
  match leftE with
  | .error e => .error e
  | .ok left =>
    let seg1 := left.takeWhile (fun c => !(c == '—'))
    let lead0 :=
      match subIdx seg1 [' ', '.', ' '] with
      | some j => seg1.take j
      | none => seg1
    let lead := stripCharsL CS_STRIP lead0
    let roleEditors := (searchIdx edMatchAt lead).isSome
    let leadClean := stripCharsL CS_STRIP (reSubAll edMatchAt [] lead)
    match (if leadClean.isEmpty then Except.ok ([] : List Person) else splitPeople leadClean) with
    | .error e => .error e
    | .ok people =>
      let authors := if roleEditors then [] else people
      let editors := if roleEditors then people else []
      let title : List Char :=
        match tq with
        | some t => t
        | none =>
          let segs := splitOnChar '—' s1
          if segs.length ≥ 2 then stripCharsL CS_STRIP (segs.getD 1 [])
          else
            let rest := s1.drop lead.length
            match rest.findIdx? (fun c => c == ',' || c == '.') with
            | some j => stripL (rest.take j)
            | none => stripL rest
      let mIn := searchIdx inMatchAt s1
      let contPg : Option (List Char) × Option (List Char) :=
        match mIn with
        | none => (none, none)
        | some (st, ln) =>
          let afterIn := stripL (s1.drop (st + ln))
          match searchIdx pagesMatchAt afterIn with
          | some (ps, kwLen, _, _) =>
            (some (stripCharsL CS_STRIP (afterIn.take ps)),
             some ((afterIn.drop ps).take kwLen))
          | none =>
            match searchIdx rangeMatchAt afterIn with
            | some (ps, n) =>
              (some (stripCharsL CS_STRIP (afterIn.take ps)),
               some ((afterIn.drop ps).take n))
            | none =>
              match parsePlacePublisher afterIn with
              | (none, none) => (some (stripCharsL CS_STRIP afterIn), none)
              | _ =>
                match afterIn.findIdx? (fun c => c == ':') with
                | some j => (some (stripCharsL CS_STRIP (afterIn.take j)), none)
                | none =>
                  (some (stripCharsL CS_STRIP (afterIn.take (afterIn.length - 1))), none)
      let mVi := searchIdx volIssAt s1
      let pagesVi : Option (List Char) :=
        match mVi with
        | none => contPg.2
        | some _ =>
          match searchIdx colonPagesAt s1 with
          | some (_, g) => some g
          | none => contPg.2
      let pagesFalsy :=
        match pagesVi with
        | none => true
        | some p => p.isEmpty
      let pages :=
        if pagesFalsy then
          match searchIdx pagesMatchAt s1 with
          | some (ps, kwLen, wsLen, coreLen) =>
            some (((s1.drop ps).drop (kwLen + wsLen)).take coreLen)
          | none => pagesVi
        else pagesVi
      let pp := parsePlacePublisher s1
      .ok ⟨meta.1, meta.2, authors, editors, String.mk title,
        contPg.1.map String.mk, pp.2.map String.mk, pp.1.map String.mk,
        year,
        mVi.map (fun g => String.mk g.2.1),
        mVi.map (fun g => String.mk g.2.2),
        pages.map String.mk, doi.map String.mk, isbn.map String.mk,
        url.map String.mk⟩

/-- `ref_parser.parse_reference`. -/
def parseReference (raw : String) : Except String ParsedRef :=
  let s0 := pyClean raw.data
  let meta := detectStyleAndType s0
  let pDoi := stripAndCapture doiMatchAt s0
  let pIsbn := stripAndCapture isbnMatchAt pDoi.2
  let pUrl := stripAndCapture urlMatchAt pIsbn.2
  parseRefCore meta pDoi.1 pIsbn.1 pUrl.1 pUrl.2

/-- The line after the three `strip_and_capture` calls of `parse_reference`
(the string on which the year is extracted). -/
def stripIds (s0 : List Char) : List Char :=
  (stripAndCapture urlMatchAt
    (stripAndCapture isbnMatchAt (stripAndCapture doiMatchAt s0).2).2).2

/-! ## `services/ref_extractor.py` — the per-page record filter -/

/-- A record produced by the line parsers of `extract_references`
(`{authors, year, title, publisher}`). -/
structure ERec where
  authors : String
  year : Option Int
  title : String
  publisher : String
deriving DecidableEq, Repr

/-- `_parse_page` of `extract_references`: per merged line, the caller's
`line_parser` has priority, then the style regex, then the fallback (the two
regex producers are abstracted as parameter functions — the acceptance filter
of step (d) is independent of them); a produced record is kept only when both
its `authors` and its `title` are non-empty (Python truthiness). -/
def parsePage (lineParser styleParser fallbackParser : String → Option ERec)
    (txt : String) : List ERec :=
  (mergeLines txt).filterMap (fun raw =>
    let r0 : Option ERec :=
      match lineParser raw with
      | some r => some r
      | none =>
        match styleParser raw with
        | some r => some r
        | none => fallbackParser raw
    match r0 with
    | some r => if !(r.authors == "") && !(r.title == "") then some r else none
    | none => none)

/-! ### Concrete parser inputs -/

/-- The end-to-end example line of the spec (claim C5). -/
def RAW_C5 : String :=
  "Smith, J., and Doe, A. (2020). A Study of Things. Journal of Studies, 12(3), 45–67."

/-- What `parse_reference` actually returns on `RAW_C5`: the second `RE_ISBN`
alternative captures the bare year "2020" as an ISBN and strips it, so the
year is absent, the title fallback yields the empty string, and the second
author swallows the rest of the line. -/
def REC_C5 : ParsedRef :=
  ⟨"author-year", "other",
   [⟨"Smith", "J."⟩,
    ⟨"Doe", "A. ( ). A Study of Things. Journal of Studies, 12(3), 45–67"⟩],
   [], "", none, none, none, none, none, none, none, none, some "2020", none⟩

/-- A line with two year-like tokens (the earlier one doubling as the
ISBN-regex victim), for the C8 witness. -/
def RAW_C8 : String := "Alpha Beta 1990 text 2005 reprint"

def REC_C8 : ParsedRef :=
  ⟨"author-year", "other", [⟨"reprint", "Alpha Beta text 2005"⟩], [], "",
   none, none, none, some 2005, none, none, none, none, some "1990", none⟩

/-! ## Character-level facts used by the word-splitting lemmas -/

theorem charOfNatToNat {n : Nat} (h1 : n < 55296) : (Char.ofNat n).toNat = n := by
  have hv : n.isValidChar := Or.inl h1
  unfold Char.ofNat
  rw [dif_pos hv]
  simp [Char.ofNatAux, Char.toNat, UInt32.toNat, BitVec.toNat_ofNatLt]

theorem charLeIffNat {a b : Char} : a ≤ b ↔ a.toNat ≤ b.toNat := Iff.rfl

/-- No printable ASCII character is Python whitespace. -/
theorem notWs_of_ascii {x : Char} (h1 : 33 ≤ x.toNat) (h2 : x.toNat ≤ 126) :
    pyIsWs x = false := by
  by_contra hc
  have hx : x ∈ pyWsChars := by
    have := Bool.of_not_eq_false hc
    simpa [pyIsWs] using this
  simp [pyWsChars] at hx
  rcases hx with h | h | h | h | h | h | h | h | h | h | h | h | h |
    h | h | h | h | h | h | h | h | h | h | h | h <;> subst h <;>
    first
    | exact absurd h1 (by decide)
    | exact absurd h2 (by decide)

theorem pyToUpper_ws (c : Char) : pyIsWs (pyToUpper c) = pyIsWs c := by
  unfold pyToUpper
  split_ifs with h1 h2 h3 h4 h5 h6 h7 h8 h9
  · have ha : 97 ≤ c.toNat := charLeIffNat.mp h1.1
    have hb : c.toNat ≤ 122 := charLeIffNat.mp h1.2
    have hr : (Char.ofNat (c.toNat - 32)).toNat = c.toNat - 32 :=
      charOfNatToNat (by omega)
    rw [notWs_of_ascii (x := Char.ofNat (c.toNat - 32)) (by omega) (by omega),
      notWs_of_ascii (by omega) (by omega)]
  all_goals first
  | rfl
  | (subst_vars; decide)

theorem pyToLower_ws (c : Char) : pyIsWs (pyToLower c) = pyIsWs c := by
  unfold pyToLower
  split_ifs with h1 h2 h3 h4 h5 h6 h7 h8 h9
  · have ha : 65 ≤ c.toNat := charLeIffNat.mp h1.1
    have hb : c.toNat ≤ 90 := charLeIffNat.mp h1.2
    have hr : (Char.ofNat (c.toNat + 32)).toNat = c.toNat + 32 :=
      charOfNatToNat (by omega)
    rw [notWs_of_ascii (x := Char.ofNat (c.toNat + 32)) (by omega) (by omega),
      notWs_of_ascii (by omega) (by omega)]
  all_goals first
  | rfl
  | (subst_vars; decide)


/-! ## C10 — conservation property of `_merge_lines` -/

theorem joinSp_cons_ne (w : List Char) {ws : List (List Char)} (h : ws ≠ []) :
    joinSp (w :: ws) = w ++ ' ' :: joinSp ws := by
  cases ws with
  | nil => exact absurd rfl h
  | cons a as => rfl

theorem joinSp_ne_nil {g : List (List Char)} (hg : g ≠ [])
    (hx : ∀ x ∈ g, x ≠ []) : joinSp g ≠ [] := by
  cases g with
  | nil => exact absurd rfl hg
  | cons w ws =>
    cases ws with
    | nil => exact hx w (by simp)
    | cons a as => simp [joinSp]

theorem joinSp_append_one (l : List Char) :
    ∀ {g : List (List Char)}, g ≠ [] → joinSp (g ++ [l]) = joinSp g ++ ' ' :: l := by
  intro g
  induction g with
  | nil => intro h; exact absurd rfl h
  | cons w ws ihw =>
    intro _
    cases ws with
    | nil => rfl
    | cons a as =>
      rw [List.cons_append, joinSp_cons_ne w (by simp), ihw (by simp),
        joinSp_cons_ne w (by simp)]
      simp

theorem mergeAux_spec :
    ∀ (ls : List (List Char)) (g : List (List Char)),
      (∀ x ∈ g, x ≠ []) →
      ∃ groups : List (List (List Char)),
        (∀ h ∈ groups, h ≠ [] ∧ ∀ x ∈ h, x ≠ []) ∧
        mergeAux ls (joinSp g) = groups.map joinSp ∧
        groups.flatten = g ++ (ls.map rstripL).filter (fun l => !l.isEmpty) := by
  intro ls
  induction ls with
  | nil =>
    intro g hg
    by_cases hge : g = []
    · subst hge
      exact ⟨[], by simp, by simp [mergeAux, joinSp], by simp⟩
    · refine ⟨[g], ?_, ?_, by simp⟩
      · simp only [List.mem_singleton]
        rintro h rfl
        exact ⟨hge, hg⟩
      · have hne : (joinSp g).isEmpty = false := by
          simp only [List.isEmpty_eq_false, ne_eq]
          exact joinSp_ne_nil hge hg
        simp [mergeAux, hne]
  | cons ln rest ih =>
    intro g hg
    by_cases hge : g = []
    · subst hge
      cases hl : (rstripL ln).isEmpty with
      | true =>
        obtain ⟨groups, h1, h2, h3⟩ := ih [] (by simp)
        refine ⟨groups, h1, ?_, by simp [hl, h3]⟩
        rw [show mergeAux (ln :: rest) (joinSp []) = mergeAux rest [] by
          simp [mergeAux, joinSp, hl]]
        exact h2
      | false =>
        have hlne : rstripL ln ≠ [] := by
          simpa [List.isEmpty_eq_false] using hl
        obtain ⟨groups, h1, h2, h3⟩ := ih [rstripL ln] (by simpa using hlne)
        refine ⟨groups, h1, ?_, by simpa [hl, joinSp] using h3⟩
        rw [show mergeAux (ln :: rest) (joinSp []) = mergeAux rest (rstripL ln) by
          simp [mergeAux, joinSp, hl]]
        exact h2
    · have hbuf : (joinSp g).isEmpty = false := by
        simp only [List.isEmpty_eq_false, ne_eq]
        exact joinSp_ne_nil hge hg
      cases hl : (rstripL ln).isEmpty with
      | true =>
        obtain ⟨groups, h1, h2, h3⟩ := ih [] (by simp)
        refine ⟨g :: groups, ?_, ?_, by simp [hl, h3, hge]⟩
        · intro h hh
          rcases List.mem_cons.mp hh with heq | hmem
          · exact heq ▸ ⟨hge, hg⟩
          · exact h1 h hmem
        · rw [show mergeAux (ln :: rest) (joinSp g) = joinSp g :: mergeAux rest [] by
            simp [mergeAux, hl, hbuf]]
          rw [show mergeAux rest [] = mergeAux rest (joinSp []) from rfl, h2]
          rfl
      | false =>
        have hlne : rstripL ln ≠ [] := by
          simpa [List.isEmpty_eq_false] using hl
        cases hc : (!endsTermPunct (joinSp g) && headIsLower (rstripL ln)) with
        | true =>
          obtain ⟨groups, h1, h2, h3⟩ := ih (g ++ [rstripL ln])
            (by intro x hx
                rcases List.mem_append.mp hx with hx | hx
                · exact hg x hx
                · simp at hx; exact hx ▸ hlne)
          refine ⟨groups, h1, ?_, ?_⟩
          · rw [joinSp_append_one _ hge] at h2
            rw [show mergeAux (ln :: rest) (joinSp g) =
                mergeAux rest (joinSp g ++ ' ' :: rstripL ln) by
              simp [mergeAux, hl, hbuf, hc]]
            exact h2
          · rw [h3]
            simp [hl, List.append_assoc]
        | false =>
          obtain ⟨groups, h1, h2, h3⟩ := ih [rstripL ln] (by simpa using hlne)
          refine ⟨g :: groups, ?_, ?_, by simpa [hl, joinSp, hge] using h3⟩
          · intro h hh
            rcases List.mem_cons.mp hh with heq | hmem
            · exact heq ▸ ⟨hge, hg⟩
            · exact h1 h hmem
          · rw [show mergeAux (ln :: rest) (joinSp g) =
                joinSp g :: mergeAux rest (rstripL ln) by
              simp [mergeAux, hl, hbuf, hc]]
            rw [show mergeAux rest (rstripL ln) =
              mergeAux rest (joinSp [rstripL ln]) from rfl, h2]
            rfl

/-- C10: the soft-wrap line merger `_merge_lines` conserves content — the
right-trimmed non-blank input lines appear exactly once, in original order,
partitioned into the output logical lines (each output line joining its group
with single spaces); every output line is non-empty; blank input lines only
separate buffers and never produce output. -/
theorem merge_lines_conservation_c10 (t : String) :
    ∃ groups : List (List (List Char)),
      groups.all (fun g => !g.isEmpty && g.all (fun x => !x.isEmpty)) = true ∧
      mergeLines t = groups.map (fun g => String.mk (joinSp g)) ∧
      groups.flatten = nonBlankLines t.data ∧
      (mergeLines t).all (fun l => !l.isEmpty) = true := by
  obtain ⟨groups, h1, h2, h3⟩ := mergeAux_spec (pySplitlines t.data) [] (by simp)
  have hml : mergeLines t = groups.map (fun g => String.mk (joinSp g)) := by
    rw [mergeLines]
    rw [show mergeAux (pySplitlines t.data) [] =
      mergeAux (pySplitlines t.data) (joinSp []) from rfl, h2, List.map_map]
    rfl
  refine ⟨groups, ?_, hml, by simpa [nonBlankLines] using h3, ?_⟩
  · rw [List.all_eq_true]
    intro g hgmem
    obtain ⟨hgne, hgx⟩ := h1 g hgmem
    simp only [Bool.and_eq_true, List.all_eq_true, List.isEmpty_eq_false,
      Bool.not_eq_eq_eq_not, Bool.not_true, ne_eq]
    exact ⟨by simpa [List.isEmpty_eq_false] using hgne,
      fun x hx => by simpa [List.isEmpty_eq_false] using hgx x hx⟩
  · rw [List.all_eq_true]
    intro l hl
    rw [hml] at hl
    obtain ⟨g, hgmem, rfl⟩ := List.mem_map.mp hl
    obtain ⟨hgne, hgx⟩ := h1 g hgmem
    have hne := joinSp_ne_nil hgne hgx
    rw [Bool.not_eq_eq_eq_not, Bool.not_true, Bool.eq_false_iff]
    intro hcon
    have hs := (String.isEmpty_iff _).mp hcon
    exact hne (by simpa using congrArg String.data hs)

/-! ## C7 — smart title case -/

theorem pySplitWsAux_word :
    ∀ (w cs acc : List Char), (∀ c ∈ w, pyIsWs c = false) →
      pySplitWsAux (w ++ cs) acc = pySplitWsAux cs (w.reverse ++ acc) := by
  intro w
  induction w with
  | nil => intro cs acc _; rfl
  | cons c w' ihw =>
    intro cs acc h
    have hc : pyIsWs c = false := h c (by simp)
    rw [List.cons_append, show pySplitWsAux (c :: (w' ++ cs)) acc =
      pySplitWsAux (w' ++ cs) (c :: acc) by simp [pySplitWsAux, hc]]
    rw [ihw cs (c :: acc) (fun a ha => h a (by simp [ha]))]
    simp

theorem pySplitWsAux_words :
    ∀ (cs acc : List Char), (∀ c ∈ acc, pyIsWs c = false) →
      ∀ w ∈ pySplitWsAux cs acc, w ≠ [] ∧ ∀ c ∈ w, pyIsWs c = false := by
  intro cs
  induction cs with
  | nil =>
    intro acc hacc w hw
    by_cases he : acc.isEmpty
    · simp [pySplitWsAux, he] at hw
    · simp [pySplitWsAux, he] at hw
      subst hw
      refine ⟨by simpa [List.isEmpty_eq_false] using he, ?_⟩
      intro c hc
      exact hacc c (by simpa using hc)
  | cons c rest ih =>
    intro acc hacc w hw
    by_cases hc : pyIsWs c
    · by_cases he : acc.isEmpty
      · rw [show pySplitWsAux (c :: rest) acc = pySplitWsAux rest [] by
          simp [pySplitWsAux, hc, he]] at hw
        exact ih [] (by simp) w hw
      · rw [show pySplitWsAux (c :: rest) acc = acc.reverse :: pySplitWsAux rest [] by
          simp [pySplitWsAux, hc, he]] at hw
        rcases List.mem_cons.mp hw with heq | hmem
        · subst heq
          refine ⟨by simpa [List.isEmpty_eq_false] using he, ?_⟩
          intro x hx
          exact hacc x (by simpa using hx)
        · exact ih [] (by simp) w hmem
    · rw [show pySplitWsAux (c :: rest) acc = pySplitWsAux rest (c :: acc) by
        simp [pySplitWsAux, hc]] at hw
      refine ih (c :: acc) ?_ w hw
      intro x hx
      rcases List.mem_cons.mp hx with heq | hmem
      · subst heq; simpa using hc
      · exact hacc x hmem

theorem pySplitWs_words (cs : List Char) :
    ∀ w ∈ pySplitWs cs, w ≠ [] ∧ ∀ c ∈ w, pyIsWs c = false :=
  pySplitWsAux_words cs [] (by simp)

theorem splitWs_joinSp :
    ∀ (ws : List (List Char)),
      (∀ w ∈ ws, w ≠ [] ∧ ∀ c ∈ w, pyIsWs c = false) → pySplitWs (joinSp ws) = ws := by
  intro ws
  induction ws with
  | nil => intro _; rfl
  | cons w tail ihw =>
    intro h
    obtain ⟨hne, hcs⟩ := h w (by simp)
    cases tail with
    | nil =>
      rw [show joinSp [w] = w from rfl, pySplitWs,
        show w = w ++ [] by simp, pySplitWsAux_word w [] [] hcs]
      have : (w.reverse ++ []).isEmpty = false := by
        simp [List.isEmpty_eq_false, hne]
      simp [pySplitWsAux, this, hne]
    | cons w2 tail2 =>
      rw [joinSp_cons_ne _ (by simp), pySplitWs, pySplitWsAux_word w _ [] hcs,
        show pySplitWsAux (' ' :: joinSp (w2 :: tail2)) (w.reverse ++ []) =
          (w.reverse ++ []).reverse :: pySplitWsAux (joinSp (w2 :: tail2)) [] by
        simp [pySplitWsAux, show pyIsWs ' ' = true by decide,
          List.isEmpty_eq_false, hne]]
      rw [show pySplitWsAux (joinSp (w2 :: tail2)) [] = pySplitWs (joinSp (w2 :: tail2)) from rfl,
        ihw (fun x hx => h x (by simp [hx]))]
      simp

theorem pyCapitalize_wf {w : List Char} (hne : w ≠ [])
    (hws : ∀ c ∈ w, pyIsWs c = false) :
    pyCapitalize w ≠ [] ∧ ∀ c ∈ pyCapitalize w, pyIsWs c = false := by
  cases w with
  | nil => exact absurd rfl hne
  | cons a rest =>
    refine ⟨by simp [pyCapitalize], ?_⟩
    intro c hc
    rcases List.mem_cons.mp hc with heq | hmem
    · subst heq
      rw [pyToUpper_ws]
      exact hws a (by simp)
    · obtain ⟨d, hd, rfl⟩ := List.mem_map.mp hmem
      rw [pyToLower_ws]
      exact hws d (by simp [hd])

theorem smartWord_wf (i : Nat) {w : List Char} (hne : w ≠ [])
    (hws : ∀ c ∈ w, pyIsWs c = false) :
    smartWord i w ≠ [] ∧ ∀ c ∈ smartWord i w, pyIsWs c = false := by
  rw [smartWord]
  split_ifs with h1 h2
  · refine ⟨by simpa using hne, ?_⟩
    intro c hc
    obtain ⟨d, hd, rfl⟩ := List.mem_map.mp hc
    rw [pyToUpper_ws]
    exact hws d hd
  · exact pyCapitalize_wf hne hws
  · exact ⟨hne, hws⟩

theorem mapIdxL_wf {f : Nat → List Char → List Char}
    (hf : ∀ i w, w ≠ [] → (∀ c ∈ w, pyIsWs c = false) →
      f i w ≠ [] ∧ ∀ c ∈ f i w, pyIsWs c = false) :
    ∀ (l : List (List Char)) (i : Nat),
      (∀ w ∈ l, w ≠ [] ∧ ∀ c ∈ w, pyIsWs c = false) →
      ∀ w ∈ mapIdxL f i l, w ≠ [] ∧ ∀ c ∈ w, pyIsWs c = false := by
  intro l
  induction l with
  | nil => intro i _ w hw; simp [mapIdxL] at hw
  | cons a l ihl =>
    intro i h w hw
    rcases List.mem_cons.mp hw with heq | hmem
    · obtain ⟨h1, h2⟩ := h a (by simp)
      exact heq ▸ hf i a h1 h2
    · exact ihl (i + 1) (fun x hx => h x (by simp [hx])) w hmem

theorem mapIdxL_getElem? {α β : Type} (f : Nat → α → β) :
    ∀ (l : List α) (i j : Nat), (mapIdxL f i l)[j]? = (l[j]?).map (f (i + j)) := by
  intro l
  induction l with
  | nil => intro i j; simp [mapIdxL]
  | cons a l ihl =>
    intro i j
    cases j with
    | zero => simp [mapIdxL]
    | succ j =>
      rw [show mapIdxL f i (a :: l) = f i a :: mapIdxL f (i + 1) l from rfl]
      simp only [List.getElem?_cons_succ]
      rw [ihl (i + 1) j, show i + 1 + j = i + (j + 1) by omega]

/-- C7 counterexample: the title "DER KRIEG IM NORDEN" is ALL CAPS
(ratio 1 ≥ 0.85) and "im" is an interior stopword, yet `_clean_title` renders
it "Der Krieg IM Norden" — the Roman-numeral rule fires first on "im" (I and M
are Roman-numeral letters) and uppercases it instead of keeping it lowercase. -/
theorem smart_titlecase_c7_counterexample :
    isAllCaps "DER KRIEG IM NORDEN" = true ∧
    "im" ∈ STOPWORDS_TITLE ∧
    cleanTitle "DER KRIEG IM NORDEN" = "Der Krieg IM Norden" ∧
    cleanTitle "DER KRIEG IM NORDEN" ≠ "Der Krieg im Norden" := by
  refine ⟨by decide, by decide, by decide, by decide⟩

/-- C7 (amended): on an ALL-CAPS title (uppercase-letter ratio ≥ 0.85) the
normalizer produces one output word per input word where Roman-numeral-letter
words are fully uppercased (this rule precedes and overrides the stopword
rule, so stopwords consisting solely of Roman-numeral letters such as "im" or
"di" are uppercased), all other interior stopwords are kept lowercase, and
any other word (the first word in particular) is capitalized; the two spec
examples hold. -/
theorem smart_titlecase_c7 :
    (∀ s : String, isAllCaps s = true →
      pySplitWs ((smartTitlecase s).data) =
        mapIdxL smartWord 0 (pySplitWs (lowerL s.data))) ∧
    cleanTitle "THE HISTORY OF THE WORLD" = "The History of the World" ∧
    cleanTitle "CHAPTER XIV OVERVIEW" = "Chapter XIV Overview" ∧
    (∀ s : String, isAllCaps s = true →
      ∀ i w, 0 < i → (pySplitWs (lowerL s.data))[i]? = some w →
        (STOPWORDS_TITLE.map String.data).contains w = true → romanToken w = false →
        (pySplitWs ((smartTitlecase s).data))[i]? = some w) := by
  have main : ∀ s : String,
      pySplitWs ((smartTitlecase s).data) =
        mapIdxL smartWord 0 (pySplitWs (lowerL s.data)) := by
    intro s
    rw [show (smartTitlecase s).data =
      joinSp (mapIdxL smartWord 0 (pySplitWs (lowerL s.data))) from rfl]
    exact splitWs_joinSp _
      (mapIdxL_wf (fun i w h1 h2 => smartWord_wf i h1 h2) _ 0 (pySplitWs_words _))
  refine ⟨fun s _ => main s, by decide, by decide, ?_⟩
  intro s _ i w hi hw hstop hroman
  rw [main s, mapIdxL_getElem?, hw]
  have hcond : (i = 0 || !((STOPWORDS_TITLE.map String.data).contains w)) = false := by
    rw [hstop]
    simp only [Bool.not_true, Bool.or_false, decide_eq_false_iff_not]
    omega
  have hsw : smartWord i w = w := by
    rw [smartWord, if_neg (by simp [hroman]),
      if_neg (by simp only [hcond]; exact Bool.false_ne_true)]
  simp [hsw]

/-- C7 witness for the hypothesis-bearing parts of the amended theorem. -/
theorem smart_titlecase_c7_witness :
    (isAllCaps "AB IM CD" = true ∧
      pySplitWs ((smartTitlecase "AB IM CD").data) =
        mapIdxL smartWord 0 (pySplitWs (lowerL "AB IM CD".data))) ∧
    (isAllCaps "LA GUERRE LA NUIT" = true ∧
      (pySplitWs ((smartTitlecase "LA GUERRE LA NUIT").data))[2]? = some ['l', 'a']) :=
  ⟨⟨by decide, smart_titlecase_c7.1 "AB IM CD" (by decide)⟩,
   ⟨by decide, smart_titlecase_c7.2.2.2 "LA GUERRE LA NUIT" (by decide) 2 ['l', 'a']
      (by decide) (by decide) (by decide) (by decide)⟩⟩

/-! ## C6 — deduplication is idempotent, stable, first-seen-keeping -/

theorem dedupeExactAux_idem :
    ∀ (rs : List NormalizedRef) (seen : List (String × String × Int)),
      dedupeExactAux seen (dedupeExactAux seen rs) = dedupeExactAux seen rs := by
  intro rs
  induction rs with
  | nil => intro seen; rfl
  | cons r rs ih =>
    intro seen
    by_cases hm : dedupKey r ∈ seen
    · simp [dedupeExactAux, hm, ih]
    · rw [show dedupeExactAux seen (r :: rs) =
        r :: dedupeExactAux (dedupKey r :: seen) rs by simp [dedupeExactAux, hm]]
      rw [show dedupeExactAux seen (r :: dedupeExactAux (dedupKey r :: seen) rs) =
        r :: dedupeExactAux (dedupKey r :: seen)
          (dedupeExactAux (dedupKey r :: seen) rs) by simp [dedupeExactAux, hm]]
      rw [ih]

theorem dedupeExactAux_sublist :
    ∀ (rs : List NormalizedRef) (seen : List (String × String × Int)),
      (dedupeExactAux seen rs).Sublist rs := by
  intro rs
  induction rs with
  | nil => intro seen; simp [dedupeExactAux]
  | cons r rs ih =>
    intro seen
    by_cases hm : dedupKey r ∈ seen
    · rw [show dedupeExactAux seen (r :: rs) = dedupeExactAux seen rs by
        simp [dedupeExactAux, hm]]
      exact (ih seen).cons r
    · rw [show dedupeExactAux seen (r :: rs) =
        r :: dedupeExactAux (dedupKey r :: seen) rs by simp [dedupeExactAux, hm]]
      exact (ih _).cons₂ r

theorem dedupeFuzzy_sublist (sim : String → String → ℚ) (thr : ℚ) :
    ∀ rs : List NormalizedRef, (dedupeFuzzy sim thr rs).Sublist rs
  | [] => by simp [dedupeFuzzy]
  | r :: rs => by
    rw [dedupeFuzzy]
    exact List.Sublist.cons₂ r
      ((dedupeFuzzy_sublist sim thr _).trans (List.filter_sublist _))
termination_by rs => rs.length
decreasing_by
  simp
  exact Nat.lt_succ_of_le (List.length_filter_le _ _)

theorem dedupeFuzzy_idem (sim : String → String → ℚ) (thr : ℚ) :
    ∀ rs : List NormalizedRef,
      dedupeFuzzy sim thr (dedupeFuzzy sim thr rs) = dedupeFuzzy sim thr rs
  | [] => by simp [dedupeFuzzy]
  | r :: rs => by
    have hsub := dedupeFuzzy_sublist sim thr
      (rs.filter fun x => !fuzzyMatches sim thr r x)
    have hall : ∀ x ∈ dedupeFuzzy sim thr (rs.filter fun x => !fuzzyMatches sim thr r x),
        (!fuzzyMatches sim thr r x) = true :=
      fun x hx => (List.mem_filter.mp (hsub.subset hx)).2
    have hfilter : (dedupeFuzzy sim thr
        (rs.filter fun x => !fuzzyMatches sim thr r x)).filter
          (fun x => !fuzzyMatches sim thr r x) =
        dedupeFuzzy sim thr (rs.filter fun x => !fuzzyMatches sim thr r x) :=
      List.filter_eq_self.mpr hall
    rw [show dedupeFuzzy sim thr (r :: rs) =
      r :: dedupeFuzzy sim thr (rs.filter fun x => !fuzzyMatches sim thr r x) by
      rw [dedupeFuzzy]]
    rw [show dedupeFuzzy sim thr
        (r :: dedupeFuzzy sim thr (rs.filter fun x => !fuzzyMatches sim thr r x)) =
      r :: dedupeFuzzy sim thr ((dedupeFuzzy sim thr
        (rs.filter fun x => !fuzzyMatches sim thr r x)).filter
          (fun x => !fuzzyMatches sim thr r x)) by rw [dedupeFuzzy]]
    rw [hfilter, dedupeFuzzy_idem sim thr (rs.filter fun x => !fuzzyMatches sim thr r x)]
termination_by rs => rs.length
decreasing_by
  simp
  exact Nat.lt_succ_of_le (List.length_filter_le _ _)

/-- C6: `dedupe_records` is idempotent in both its modes — the exact-key
fallback and the fuzzy token-set-similarity mode (for every similarity
function standing in for `rapidfuzz.fuzz.token_set_ratio` and every
threshold) — and its output is a sublist of the input: the first-seen record
of each duplicate cluster is kept in the input's processing order. -/
theorem dedupe_idempotent_c6 (sim : String → String → ℚ) (thr : ℚ)
    (rs : List NormalizedRef) :
    dedupeExact (dedupeExact rs) = dedupeExact rs ∧
    dedupeFuzzy sim thr (dedupeFuzzy sim thr rs) = dedupeFuzzy sim thr rs ∧
    (dedupeExact rs).Sublist rs ∧ (dedupeFuzzy sim thr rs).Sublist rs :=
  ⟨dedupeExactAux_idem rs [], dedupeFuzzy_idem sim thr rs,
   dedupeExactAux_sublist rs [], dedupeFuzzy_sublist sim thr rs⟩

/-! ## C3 — interval selection -/

theorem not_beats_refl (S : List ℚ) (r : Nat × Nat) : ¬ Beats S r r := by
  simp [Beats]

theorem not_beats_trans {S : List ℚ} {r c w : Nat × Nat}
    (h1 : ¬ Beats S r c) (h2 : ¬ Beats S c w) : ¬ Beats S r w := by
  simp only [Beats, not_or, not_and, not_lt] at h1 h2 ⊢
  obtain ⟨h1a, h1b⟩ := h1
  obtain ⟨h2a, h2b⟩ := h2
  refine ⟨le_trans h1a h2a, ?_⟩
  intro heq
  have hce : runMean S c = runMean S w := le_antisymm h2a (by linarith)
  have hrc : runMean S r = runMean S c := by linarith
  exact le_trans (h1b hrc) (h2b hce)

theorem beats_trans {S : List ℚ} {r c w : Nat × Nat}
    (h1 : Beats S r c) (h2 : Beats S c w) : Beats S r w := by
  rcases h1 with h1 | ⟨h1a, h1b⟩ <;> rcases h2 with h2 | ⟨h2a, h2b⟩
  · exact Or.inl (lt_trans h2 h1)
  · exact Or.inl (by linarith)
  · exact Or.inl (by linarith)
  · exact Or.inr ⟨by linarith, by omega⟩

theorem fold_not_beaten (S : List ℚ) :
    ∀ (L : List (Nat × Nat)) (acc : Option (Nat × Nat)) (w : Nat × Nat),
      L.foldl (fun a r => some (chooseBetter S a r)) acc = some w →
      (∀ r ∈ L, ¬ Beats S r w) ∧
      (∀ c, acc = some c → ¬ Beats S c w) ∧
      (acc = some w ∨ w ∈ L) := by
  intro L
  induction L with
  | nil =>
    intro acc w h
    simp only [List.foldl_nil] at h
    subst h
    exact ⟨by simp, fun c hc => by
      injection hc with hc
      exact hc ▸ not_beats_refl S w, Or.inl rfl⟩
  | cons r rest ih =>
    intro acc w h
    simp only [List.foldl_cons] at h
    obtain ⟨ih1, ih2, ih3⟩ := ih (some (chooseBetter S acc r)) w h
    have hcbw : ¬ Beats S (chooseBetter S acc r) w := ih2 _ rfl
    have hrw : ¬ Beats S r w := by
      cases acc with
      | none => exact hcbw
      | some c =>
        by_cases hb : Beats S r c
        · simpa [chooseBetter, hb] using hcbw
        · have hcw : ¬ Beats S c w := by simpa [chooseBetter, hb] using hcbw
          exact not_beats_trans hb hcw
    refine ⟨?_, ?_, ?_⟩
    · intro x hx
      rcases List.mem_cons.mp hx with heq | hmem
      · exact heq ▸ hrw
      · exact ih1 x hmem
    · intro c hc
      subst hc
      by_cases hb : Beats S r c
      · intro hcon
        exact hcbw (by simpa [chooseBetter, hb] using beats_trans hb hcon)
      · simpa [chooseBetter, hb] using hcbw
    · rcases ih3 with heq | hmem
      · cases acc with
        | none =>
          simp only [chooseBetter] at heq
          injection heq with heq
          exact Or.inr (by simp [heq])
        | some c =>
          by_cases hb : Beats S r c
          · simp only [chooseBetter, if_pos hb] at heq
            injection heq with heq
            exact Or.inr (by simp [heq])
          · simp only [chooseBetter, if_neg hb] at heq
            injection heq with heq
            exact Or.inl (by rw [heq])
      · exact Or.inr (by simp [hmem])

theorem bestRunAux_eq_fold (S : List ℚ) (thr : ℚ) :
    ∀ (l : List ℚ) (i : Nat) (best : Option (Nat × Nat)) (cur : Option Nat),
      bestRunAux S thr i l best cur =
        (runsOfAux i (l.map (fun sc => decide (sc ≥ thr))) cur).foldl
          (fun a r => some (chooseBetter S a r)) best := by
  intro l
  induction l with
  | nil =>
    intro i best cur
    cases cur with
    | none => rfl
    | some s => rfl
  | cons sc rest ih =>
    intro i best cur
    by_cases hq : sc ≥ thr
    · cases cur with
      | none =>
        rw [show bestRunAux S thr i (sc :: rest) best none =
          bestRunAux S thr (i + 1) rest best (some i) by simp [bestRunAux, hq]]
        rw [ih (i + 1) best (some i)]
        simp [runsOfAux, hq]
      | some s =>
        rw [show bestRunAux S thr i (sc :: rest) best (some s) =
          bestRunAux S thr (i + 1) rest best (some s) by simp [bestRunAux, hq]]
        rw [ih (i + 1) best (some s)]
        simp [runsOfAux, hq]
    · cases cur with
      | none =>
        rw [show bestRunAux S thr i (sc :: rest) best none =
          bestRunAux S thr (i + 1) rest best none by simp [bestRunAux, hq]]
        rw [ih (i + 1) best none]
        simp [runsOfAux, hq]
      | some s =>
        rw [show bestRunAux S thr i (sc :: rest) best (some s) =
          bestRunAux S thr (i + 1) rest
            (some (chooseBetter S best (s, i - 1))) none by simp [bestRunAux, hq]]
        rw [ih (i + 1) _ none]
        simp [runsOfAux, hq]

/-- C3 counterexample: for scores `[1, 0, 3/5, 3/5]` (boost 1) the indices
2–3 form a maximal qualifying run of length 2 (median 3/5), but the selection
picks the length-1 run `[0]` (mean 1) as best and then discards it by the
length filter, returning absent — the claim promises a non-absent interval
whenever a qualifying run of length ≥ 2 exists. -/
theorem interval_selection_c3_counterexample :
    medianQ [1, 0, 3/5, 3/5] = .ok (3/5) ∧
    maximalRuns (qualFlags [1, 0, 3/5, 3/5] (3/5 * 1)) = [(0, 0), (2, 3)] ∧
    (3 : Nat) - 2 + 1 ≥ MIN_BLOCK_LEN ∧
    selectInterval [1, 0, 3/5, 3/5] 1 = .ok none := by
  refine ⟨?_, ?_, by decide, ?_⟩
  · norm_num [medianQ, insSort, insertSorted]
  · norm_num [maximalRuns, qualFlags, runsOfAux]
  · norm_num [selectInterval, medianQ, insSort, insertSorted, bestRunAux,
      chooseBetter, Beats, runMean, runSpread, MIN_BLOCK_LEN]

/-- C3 (amended): interval selection considers ALL maximal runs of indices
scoring at least `median × boost` — including length-1 runs — picks the run
with the highest mean score (ties to the greater spread, remaining ties to
the earliest run, as the fold keeps the current best), and returns that
winner only if its length is at least 2, otherwise absent; so a qualifying
run of length ≥ 2 may be discarded when a shorter run has a higher mean. -/
theorem interval_selection_c3 :
    (∀ (scores : List ℚ) (boost : ℚ),
      selectInterval scores boost =
        (medianQ scores).map (fun med =>
          match (maximalRuns (qualFlags scores (med * boost))).foldl
              (fun a r => some (chooseBetter scores a r)) none with
          | some w => if w.2 - w.1 + 1 ≥ MIN_BLOCK_LEN then some w else none
          | none => none)) ∧
    (∀ (scores : List ℚ) (boost : ℚ) (a b : Nat),
      selectInterval scores boost = .ok (some (a, b)) →
      ∃ med, medianQ scores = .ok med ∧
        (a, b) ∈ maximalRuns (qualFlags scores (med * boost)) ∧
        b - a + 1 ≥ 2 ∧
        ∀ r ∈ maximalRuns (qualFlags scores (med * boost)), ¬ Beats scores r (a, b)) := by
  have hruns : ∀ (scores : List ℚ) (t : ℚ),
      maximalRuns (qualFlags scores t) =
        runsOfAux 0 (scores.map (fun sc => decide (sc ≥ t))) none := fun _ _ => rfl
  have main : ∀ (scores : List ℚ) (boost : ℚ),
      selectInterval scores boost =
        (medianQ scores).map (fun med =>
          match (maximalRuns (qualFlags scores (med * boost))).foldl
              (fun a r => some (chooseBetter scores a r)) none with
          | some w => if w.2 - w.1 + 1 ≥ MIN_BLOCK_LEN then some w else none
          | none => none) := by
    intro scores boost
    rw [selectInterval]
    cases hmed : medianQ scores with
    | error e => rfl
    | ok med =>
      simp only [Except.map]
      rw [hruns scores (med * boost),
        ← bestRunAux_eq_fold scores (med * boost) scores 0 none none]
      cases hb : bestRunAux scores (med * boost) 0 scores none none with
      | none => rfl
      | some w =>
        by_cases hlen : w.2 - w.1 + 1 ≥ MIN_BLOCK_LEN
        · simp [hlen]
        · simp [hlen]
  refine ⟨main, ?_⟩
  intro scores boost a b h
  rw [main scores boost] at h
  cases hmed : medianQ scores with
  | error e => rw [hmed] at h; exact absurd h (by simp [Except.map])
  | ok med =>
    rw [hmed] at h
    refine ⟨med, rfl, ?_⟩
    simp only [Except.map] at h
    cases hf : (maximalRuns (qualFlags scores (med * boost))).foldl
        (fun a r => some (chooseBetter scores a r)) none with
    | none => rw [hf] at h; simp at h
    | some w =>
      rw [hf] at h
      simp only at h
      by_cases hlen : w.2 - w.1 + 1 ≥ MIN_BLOCK_LEN
      · rw [if_pos hlen] at h
        injection h with h
        injection h with h
        subst h
        obtain ⟨h1, _, h3⟩ := fold_not_beaten scores _ none (a, b) hf
        rcases h3 with h3 | h3
        · exact absurd h3 (by simp)
        · exact ⟨h3, by simpa [MIN_BLOCK_LEN] using hlen, h1⟩
      · rw [if_neg hlen] at h
        injection h with h
        exact absurd h (by simp)

/-- C3 witness: a concrete selection where the theorem's hypothesis holds. -/
theorem interval_selection_c3_witness :
    selectInterval [1, 1, 0, 0] 1 = .ok (some (0, 1)) ∧
    ∃ med, medianQ [1, 1, 0, 0] = .ok med ∧
      (0, 1) ∈ maximalRuns (qualFlags [1, 1, 0, 0] (med * 1)) ∧
      1 - 0 + 1 ≥ 2 ∧
      ∀ r ∈ maximalRuns (qualFlags [1, 1, 0, 0] (med * 1)),
        ¬ Beats [1, 1, 0, 0] r (0, 1) := by
  have hsel : selectInterval [1, 1, 0, 0] 1 = .ok (some (0, 1)) := by
    norm_num [selectInterval, medianQ, insSort, insertSorted, bestRunAux,
      chooseBetter, Beats, runMean, runSpread, MIN_BLOCK_LEN]
  exact ⟨hsel, interval_selection_c3.2 [1, 1, 0, 0] 1 0 1 hsel⟩

/-! ## C2 — term-catalog loading -/

/-- C2 counterexample: with the catalog CSV absent, the `BIB_TERMS` binding
of `find_bibliography.py` silently substitutes the hard-coded development
fallback term set instead of failing — refuting "it never silently
substitutes a built-in fallback term set". -/
theorem term_catalog_c2_counterexample :
    loadBibTerms none = FALLBACK_BIB_TERMS ∧ FALLBACK_BIB_TERMS ≠ [] := by
  exact ⟨rfl, by decide⟩

/-- C2 (amended): when the catalog CSV is absent, `keyword_hits` exits at
load time, and since `find_bibliography` imports `keyword_hits` at module
level the combined detector also fails at load; but `find_bibliography`'s own
`BIB_TERMS` load does not fail — it silently falls back to the hard-coded
development term set. -/
theorem term_catalog_c2 :
    loadKwTerms none = .error "bibliography_terms.csv fehlt neben dem Skript!" ∧
    findBibliographyInit none = .error "bibliography_terms.csv fehlt neben dem Skript!" ∧
    loadBibTerms none = FALLBACK_BIB_TERMS :=
  ⟨rfl, rfl, rfl⟩

/-! ## C4 — the heading-fonts tightening call crashes -/

theorem pullPages_zero (doc : PdfDoc) : pullPages doc 0 0 = .ok [] := by
  have hn : (-1 : Int) ≤ (doc.pages.length : Int) - 1 := by omega
  simp [pullPages, pyRangeDown, max_eq_right hn]

theorem detectBlock_zero (bibTerms : List String) (doc : PdfDoc) (boost : ℚ) :
    detectBlock bibTerms doc 0 0 boost = .error "no median for empty data" := by
  rw [detectBlock, pullPages_zero]
  rfl

theorem bibFromToc_nonneg :
    ∀ (lines : List String) (n : Int), bibFromToc lines = some n → 0 ≤ n := by
  intro lines
  induction lines with
  | nil => intro n h; simp [bibFromToc] at h
  | cons ln rest ih =>
    intro n h
    rw [bibFromToc] at h
    by_cases hk : TOC_KEYS.any (fun k => containsSub (lowerL ln.data) k.data) = true
    · rw [if_pos hk] at h
      cases hm : tocNumMatch ln.data with
      | none => rw [hm] at h; exact ih n h
      | some m =>
        rw [hm] at h
        injection h with h
        subst h
        exact Int.ofNat_nonneg m
    · rw [if_neg hk] at h
      exact ih n h

theorem analysePdf_mem (kwTerms : List String) (doc : PdfDoc) :
    ∀ x ∈ analysePdf kwTerms doc, 1 ≤ x ∧ x ≤ (doc.pages.length : Int) := by
  intro x hx
  simp only [analysePdf, List.mem_map, List.mem_filter, List.mem_range] at hx
  obtain ⟨i, ⟨hi, _⟩, rfl⟩ := hx
  simp only [Int.ofNat_eq_coe]
  omega

theorem kwRunsAux_ne_nil :
    ∀ (ps cur : List Int) (runs : List (List Int)), kwRunsAux ps cur runs ≠ [] := by
  intro ps
  induction ps with
  | nil => intro cur runs; simp [kwRunsAux]
  | cons p ps ih =>
    intro cur runs
    rw [kwRunsAux]
    by_cases h : p = cur.getLastD 0 + 1
    · rw [if_pos h]; exact ih _ _
    · rw [if_neg h]; exact ih _ _

theorem getLastD_concat_int (b : Int) :
    ∀ (l : List Int) (d : Int), (l ++ [b]).getLastD d = b := by
  intro l
  induction l with
  | nil => intro d; rfl
  | cons a l ih =>
    intro d
    rw [List.cons_append, List.getLastD_cons]
    exact ih a

theorem headD_concat_ne (l : List Int) (b : Int) (h : l ≠ []) :
    (l ++ [b]).headD 0 = l.headD 0 := by
  cases l with
  | nil => exact absurd rfl h
  | cons a t => rfl

theorem kwRunsAux_good (n : Int) :
    ∀ (ps cur : List Int) (runs : List (List Int)),
      (∀ x ∈ ps, 1 ≤ x ∧ x ≤ n) →
      (cur ≠ [] ∧ cur.headD 0 ≤ cur.getLastD 0 ∧ ∀ x ∈ cur, 1 ≤ x ∧ x ≤ n) →
      (∀ r ∈ runs, r ≠ [] ∧ r.headD 0 ≤ r.getLastD 0 ∧ ∀ x ∈ r, 1 ≤ x ∧ x ≤ n) →
      ∀ r ∈ kwRunsAux ps cur runs,
        r ≠ [] ∧ r.headD 0 ≤ r.getLastD 0 ∧ ∀ x ∈ r, 1 ≤ x ∧ x ≤ n := by
  intro ps
  induction ps with
  | nil =>
    intro cur runs _ hcur hruns r hr
    rw [kwRunsAux] at hr
    rcases List.mem_append.mp hr with hmem | hmem
    · exact hruns r hmem
    · simp at hmem
      exact hmem ▸ hcur
  | cons p ps ih =>
    intro cur runs hps hcur hruns r hr
    rw [kwRunsAux] at hr
    obtain ⟨hne, hord, hbd⟩ := hcur
    by_cases h : p = cur.getLastD 0 + 1
    · rw [if_pos h] at hr
      refine ih (cur ++ [p]) runs (fun x hx => hps x (by simp [hx])) ?_ hruns r hr
      refine ⟨by simp, ?_, ?_⟩
      · rw [getLastD_concat_int, headD_concat_ne _ _ hne]
        omega
      · intro x hx
        rcases List.mem_append.mp hx with hx | hx
        · exact hbd x hx
        · simp at hx
          exact hx ▸ hps p (by simp)
    · rw [if_neg h] at hr
      refine ih [p] (runs ++ [cur]) (fun x hx => hps x (by simp [hx])) ?_ ?_ r hr
      · exact ⟨by simp, by simp, fun x hx => by
          simp at hx
          exact hx ▸ hps p (by simp)⟩
      · intro q hq
        rcases List.mem_append.mp hq with hq | hq
        · exact hruns q hq
        · simp at hq
          exact hq ▸ ⟨hne, hord, hbd⟩

theorem foldl_pick (P : List Int → Prop) :
    ∀ (rest : List (List Int)) (b : List Int), P b → (∀ x ∈ rest, P x) →
      P (rest.foldl (fun b x => if x.length > b.length then x else b) b) := by
  intro rest
  induction rest with
  | nil => intro b hb _; exact hb
  | cons z zs ih =>
    intro b hb hall
    rw [List.foldl_cons]
    by_cases h : z.length > b.length
    · rw [if_pos h]
      exact ih z (hall z (by simp)) (fun x hx => hall x (by simp [hx]))
    · rw [if_neg h]
      exact ih b hb (fun x hx => hall x (by simp [hx]))

theorem chooseBetter_pick (S : List ℚ) (P : Nat × Nat → Prop)
    (cur : Option (Nat × Nat)) (cand : Nat × Nat)
    (h1 : P cand) (h2 : ∀ c, cur = some c → P c) :
    P (chooseBetter S cur cand) := by
  cases cur with
  | none => exact h1
  | some c =>
    by_cases hb : Beats S cand c
    · simp only [chooseBetter, if_pos hb]
      exact h1
    · simp only [chooseBetter, if_neg hb]
      exact h2 c rfl

theorem bestRunAux_bounds (S : List ℚ) (thr : ℚ) :
    ∀ (rest : List ℚ) (i : Nat) (best : Option (Nat × Nat)) (cur : Option Nat),
      (∀ p q, best = some (p, q) → p ≤ q ∧ q + 1 ≤ i) →
      (∀ c, cur = some c → c + 1 ≤ i) →
      ∀ a b, bestRunAux S thr i rest best cur = some (a, b) →
        a ≤ b ∧ b + 1 ≤ i + rest.length := by
  intro rest
  induction rest with
  | nil =>
    intro i best cur hbest hcur a b h
    rw [bestRunAux.eq_def] at h
    dsimp only at h
    cases cur with
    | none =>
      have := hbest a b h
      simp only [List.length_nil]
      omega
    | some c =>
      dsimp only at h
      injection h with h
      have hprop := chooseBetter_pick S (fun r => r.1 ≤ r.2 ∧ r.2 + 1 ≤ i)
        best (c, i - 1)
        (by have := hcur c rfl; dsimp only; omega)
        (fun p hp => by have := hbest p.1 p.2 (by rw [hp]); exact this)
      rw [h] at hprop
      simp only [List.length_nil]
      omega
  | cons sc rest ih =>
    intro i best cur hbest hcur a b h
    rw [bestRunAux.eq_def] at h
    dsimp only at h
    by_cases hsc : sc ≥ thr
    · rw [if_pos hsc] at h
      cases cur with
      | none =>
        dsimp only at h
        have hres := ih (i + 1) best (some i)
          (fun p q hpq => by have := hbest p q hpq; omega)
          (fun c hc => by injection hc with hc; omega)
          a b h
        simp only [List.length_cons]
        omega
      | some c0 =>
        dsimp only at h
        have hc0 := hcur c0 rfl
        have hres := ih (i + 1) best (some c0)
          (fun p q hpq => by have := hbest p q hpq; omega)
          (fun c hc => by injection hc with hc; omega)
          a b h
        simp only [List.length_cons]
        omega
    · rw [if_neg hsc] at h
      cases cur with
      | some c =>
        dsimp only at h
        have hprop := chooseBetter_pick S (fun r => r.1 ≤ r.2 ∧ r.2 + 1 ≤ i)
          best (c, i - 1)
          (by have := hcur c rfl; dsimp only; omega)
          (fun p hp => by have := hbest p.1 p.2 (by rw [hp]); exact this)
        dsimp only at hprop
        have hres := ih (i + 1) (some (chooseBetter S best (c, i - 1))) none
          (fun p q hpq => by
            rw [Option.some_inj] at hpq
            rw [hpq] at hprop
            dsimp only at hprop
            omega)
          (fun c0 hc0 => by exact absurd hc0 (by simp))
          a b h
        simp only [List.length_cons]
        omega
      | none =>
        dsimp only at h
        have hres := ih (i + 1) best none
          (fun p q hpq => by have := hbest p q hpq; omega)
          (fun c0 hc0 => by exact absurd hc0 (by simp))
          a b h
        simp only [List.length_cons]
        omega

theorem selectInterval_bounds (scores : List ℚ) (boost : ℚ) (a b : Nat)
    (h : selectInterval scores boost = .ok (some (a, b))) :
    a ≤ b ∧ b < scores.length := by
  rw [selectInterval] at h
  cases hmed : medianQ scores with
  | error e => rw [hmed] at h; exact absurd h (by simp)
  | ok med =>
    rw [hmed] at h
    dsimp only at h
    cases hbr : bestRunAux scores (med * boost) 0 scores none none with
    | none => rw [hbr] at h; exact absurd h (by simp)
    | some p =>
      rw [hbr] at h
      dsimp only at h
      by_cases hlen : p.2 - p.1 + 1 ≥ MIN_BLOCK_LEN
      · rw [if_pos hlen] at h
        injection h with h
        injection h with h
        have := bestRunAux_bounds scores (med * boost) scores 0 none none
          (fun p q hpq => by exact absurd hpq (by simp))
          (fun c hc => by exact absurd hc (by simp))
          p.1 p.2 (by rw [← hbr])
        rw [h] at this
        dsimp only at this
        omega
      · rw [if_neg hlen] at h
        exact absurd h (by simp)

theorem getD_mem_of_lt {α : Type} (l : List α) (n : Nat) (d : α)
    (h : n < l.length) : l.getD n d ∈ l := by
  rw [List.getD_eq_getElem?_getD, List.getElem?_eq_getElem h]
  exact List.getElem_mem h

theorem foldl_min_le :
    ∀ (xs : List Int) (x y : Int), y ∈ x :: xs → xs.foldl min x ≤ y := by
  intro xs
  induction xs with
  | nil =>
    intro x y hy
    simp at hy
    simp [hy]
  | cons z zs ih =>
    intro x y hy
    rw [List.foldl_cons]
    have hbase := ih (min x z) (min x z) (by simp)
    rcases List.mem_cons.mp hy with hy | hy
    · exact le_trans hbase (by rw [hy]; exact min_le_left x z)
    · rcases List.mem_cons.mp hy with hy | hy
      · exact le_trans hbase (by rw [hy]; exact min_le_right x z)
      · exact ih (min x z) y (by simp [hy])

theorem foldl_min_mem :
    ∀ (xs : List Int) (x : Int), xs.foldl min x ∈ x :: xs := by
  intro xs
  induction xs with
  | nil => intro x; simp
  | cons z zs ih =>
    intro x
    rw [List.foldl_cons]
    have := ih (min x z)
    rcases List.mem_cons.mp this with h | h
    · rcases min_cases x z with ⟨he, _⟩ | ⟨he, _⟩
      · rw [h, he]; simp
      · rw [h, he]; simp
    · simp [h]

theorem foldl_max_mem :
    ∀ (xs : List Int) (x : Int), xs.foldl max x ∈ x :: xs := by
  intro xs
  induction xs with
  | nil => intro x; simp
  | cons z zs ih =>
    intro x
    rw [List.foldl_cons]
    have := ih (max x z)
    rcases List.mem_cons.mp this with h | h
    · rcases max_cases x z with ⟨he, _⟩ | ⟨he, _⟩
      · rw [h, he]; simp
      · rw [h, he]; simp
    · simp [h]

theorem intMinL_mem (l : List Int) (h : l ≠ []) : intMinL l ∈ l := by
  cases l with
  | nil => exact absurd rfl h
  | cons x xs => exact foldl_min_mem xs x

theorem intMinL_le (l : List Int) (y : Int) (hy : y ∈ l) : intMinL l ≤ y := by
  cases l with
  | nil => simp at hy
  | cons x xs => exact foldl_min_le xs x y hy

theorem intMaxL_mem (l : List Int) (h : l ≠ []) : intMaxL l ∈ l := by
  cases l with
  | nil => exact absurd rfl h
  | cons x xs => exact foldl_max_mem xs x

theorem headD_mem_int (l : List Int) (h : l ≠ []) : l.headD 0 ∈ l := by
  cases l with
  | nil => exact absurd rfl h
  | cons x xs => simp

theorem getLastD_mem_int :
    ∀ (l : List Int), l ≠ [] → ∀ d : Int, l.getLastD d ∈ l := by
  intro l
  induction l with
  | nil => intro h; exact absurd rfl h
  | cons a t ih =>
    intro _ d
    cases t with
    | nil => simp
    | cons b t2 =>
      rw [List.getLastD_cons]
      exact List.mem_cons_of_mem a (ih (by simp) a)

theorem maxByLen_prop (P : List Int → Prop) (runs : List (List Int))
    (hne : runs ≠ []) (hall : ∀ r ∈ runs, P r) : P (maxByLen runs) := by
  cases runs with
  | nil => exact absurd rfl hne
  | cons r rest =>
    exact foldl_pick P rest r (hall r (by simp))
      (fun x hx => hall x (by simp [hx]))

theorem pullPages_mem (doc : PdfDoc) (head tail : ℚ) (pgs : List (Int × String))
    (h : pullPages doc head tail = .ok pgs) :
    ∀ p ∈ pgs, 1 ≤ p.1 + 1 ∧ p.1 + 1 ≤ (doc.pages.length : Int) := by
  rw [pullPages] at h
  split at h
  case isTrue hall =>
    injection h with h
    intro p hp
    rw [← h] at hp
    obtain ⟨i, hi, rfl⟩ := List.mem_map.mp hp
    have := List.all_eq_true.mp hall i hi
    simp only [Bool.and_eq_true, decide_eq_true_eq] at this
    dsimp only
    omega
  case isFalse => exact absurd h (by simp)

theorem evaluateBlock_bounds (bibTerms : List String) (pages : List (Int × String))
    (boost : ℚ) (N : Int) (f l : Int)
    (hpages : ∀ p ∈ pages, 1 ≤ p.1 + 1 ∧ p.1 + 1 ≤ N)
    (h : evaluateBlock bibTerms pages boost = .ok (some (f, l))) :
    1 ≤ f ∧ f ≤ l ∧ l ≤ N := by
  rw [evaluateBlock] at h
  dsimp only at h
  cases hsel : selectInterval (pages.map (fun p => scorePage bibTerms p.2)) boost with
  | error e => rw [hsel] at h; exact absurd h (by simp)
  | ok r =>
    rw [hsel] at h
    cases r with
    | none => exact absurd h (by simp)
    | some p =>
      obtain ⟨a, b⟩ := p
      dsimp only at h
      injection h with h
      injection h with h
      have hab := selectInterval_bounds _ boost a b hsel
      rw [List.length_map] at hab
      set absPages := (List.range' a (b + 1 - a)).map
        (fun i => ((pages.getD i (0, "")).1 + 1)) with habs
      have hmem : ∀ y ∈ absPages, 1 ≤ y ∧ y ≤ N := by
        intro y hy
        rw [habs] at hy
        obtain ⟨i, hi, rfl⟩ := List.mem_map.mp hy
        rw [List.mem_range'_1] at hi
        have hilt : i < pages.length := by omega
        exact hpages _ (getD_mem_of_lt pages i (0, "") hilt)
      have hne : absPages ≠ [] := by
        rw [habs]
        intro hcon
        have := congrArg List.length hcon
        simp only [List.length_map, List.length_range', List.length_nil] at this
        omega
      have h1 := hmem _ (intMinL_mem absPages hne)
      have h2 := hmem _ (intMaxL_mem absPages hne)
      have h3 := intMinL_le absPages _ (intMaxL_mem absPages hne)
      injection h with hf hl
      rw [← hf, ← hl]
      exact ⟨h1.1, h3, h2.2⟩

theorem detectBlock_bounds (bibTerms : List String) (doc : PdfDoc)
    (head tail boost : ℚ) (f l : Int)
    (h : detectBlock bibTerms doc head tail boost = .ok (some (f, l))) :
    1 ≤ f ∧ f ≤ l ∧ l ≤ (doc.pages.length : Int) := by
  rw [detectBlock] at h
  cases hpp : pullPages doc head tail with
  | error e => rw [hpp] at h; exact absurd h (by simp)
  | ok pgs =>
    rw [hpp] at h
    dsimp only at h
    cases hev : evaluateBlock bibTerms pgs boost with
    | error e => rw [hev] at h; exact absurd h (by simp)
    | ok r =>
      rw [hev] at h
      cases r with
      | some p =>
        obtain ⟨a, b⟩ := p
        dsimp only at h
        injection h with h
        injection h with h
        injection h with hf hl
        rw [← hf, ← hl]
        exact evaluateBlock_bounds bibTerms pgs boost _ a b
          (pullPages_mem doc head tail pgs hpp) hev
      | none =>
        dsimp only at h
        refine evaluateBlock_bounds bibTerms _ boost _ f l ?_ h
        intro p hp
        obtain ⟨i, hi, rfl⟩ := List.mem_map.mp hp
        rw [List.mem_range] at hi
        dsimp only
        simp only [Int.ofNat_eq_coe]
        omega

/-- C1 (amended): every non-absent detection result `(f, l)` satisfies
`1 ≤ f ≤ l`, and `l ≤ pageCount` holds on every cascade stage EXCEPT the
ToC jackpot: there the single page is the raw trailing number of the
matching ToC row, which `_bib_from_toc` never clamps to the page count
(the keyword and scoring stages do stay within the document). -/
theorem detect_bounds_c1 (cfg : TermConfig) (doc : PdfDoc) (kwMinBlock : Int)
    (head tail boost : ℚ) (f l : Int)
    (h : detectBibliography cfg doc kwMinBlock head tail boost = .ok (some (f, l))) :
    1 ≤ f ∧ f ≤ l ∧
      (l ≤ (doc.pages.length : Int) ∨
       ∃ tocPg tocLines, scanPdfToc doc = .ok (tocPg, tocLines) ∧
         bibFromToc tocLines = some f ∧ l = f) := by
  rw [detectBibliography] at h
  cases hscan : scanPdfToc doc with
  | error e => rw [hscan] at h; exact absurd h (by simp)
  | ok pr =>
    obtain ⟨tocPg, tocLines⟩ := pr
    rw [hscan] at h
    dsimp only at h
    by_cases hbib : (bibFromToc tocLines).getD 0 ≠ 0
    · rw [if_pos hbib] at h
      injection h with h
      injection h with h
      injection h with hf hl
      cases hbf : bibFromToc tocLines with
      | none => rw [hbf] at hbib; simp at hbib
      | some m =>
        rw [hbf] at hf hl hbib
        simp only [Option.getD_some] at hf hl hbib
        have hnn := bibFromToc_nonneg tocLines m hbf
        refine ⟨by omega, by omega,
          Or.inr ⟨tocPg, tocLines, rfl, ?_, by omega⟩⟩
        rw [hbf]
        exact congrArg some hf
    · rw [if_neg hbib] at h
      cases hkw : analysePdf cfg.kwTerms doc with
      | cons p ps =>
        rw [hkw] at h
        dsimp only at h
        by_cases hlen :
            (((maxByLen (kwRunsAux ps [p] [])).length : Int) ≥ kwMinBlock)
        · rw [if_pos hlen] at h
          dsimp only at h
          injection h with h
          injection h with h
          injection h with hf hl
          have hmem := analysePdf_mem cfg.kwTerms doc
          rw [hkw] at hmem
          have hruns := kwRunsAux_good ((doc.pages.length : Int)) ps [p] []
            (fun x hx => hmem x (by simp [hx]))
            ⟨by simp, by simp,
             fun x hx => by simp at hx; exact hx ▸ hmem p (by simp)⟩
            (fun r hr => by simp at hr)
          have hbest := maxByLen_prop
            (fun r => r ≠ [] ∧ r.headD 0 ≤ r.getLastD 0 ∧
              ∀ x ∈ r, 1 ≤ x ∧ x ≤ (doc.pages.length : Int))
            (kwRunsAux ps [p] []) (kwRunsAux_ne_nil ps [p] []) hruns
          obtain ⟨hbne, hord, hbd⟩ := hbest
          have h1 := hbd _ (headD_mem_int _ hbne)
          have h2 := hbd _ (getLastD_mem_int _ hbne 0)
          exact ⟨by omega, by omega, Or.inl (by omega)⟩
        · rw [if_neg hlen] at h
          dsimp only at h
          cases hch : doc.chapters with
          | none =>
            rw [hch] at h
            dsimp only at h
            obtain ⟨hh1, hh2, hh3⟩ :=
              detectBlock_bounds cfg.bibTerms doc head tail boost f l h
            exact ⟨hh1, hh2, Or.inl hh3⟩
          | some chs =>
            rw [hch] at h
            dsimp only at h
            by_cases hemp : (chs.filter (fun hd =>
                bibHdrHit hd.text && decide (hd.page > tocPg.getD 0))).isEmpty = true
            · rw [if_pos hemp] at h
              obtain ⟨hh1, hh2, hh3⟩ :=
                detectBlock_bounds cfg.bibTerms doc head tail boost f l h
              exact ⟨hh1, hh2, Or.inl hh3⟩
            · rw [if_neg hemp] at h
              rw [detectBlock_zero] at h
              exact absurd h (by simp)
      | nil =>
        rw [hkw] at h
        dsimp only at h
        cases hch : doc.chapters with
        | none =>
          rw [hch] at h
          dsimp only at h
          obtain ⟨hh1, hh2, hh3⟩ :=
            detectBlock_bounds cfg.bibTerms doc head tail boost f l h
          exact ⟨hh1, hh2, Or.inl hh3⟩
        | some chs =>
          rw [hch] at h
          dsimp only at h
          by_cases hemp : (chs.filter (fun hd =>
              bibHdrHit hd.text && decide (hd.page > tocPg.getD 0))).isEmpty = true
          · rw [if_pos hemp] at h
            obtain ⟨hh1, hh2, hh3⟩ :=
              detectBlock_bounds cfg.bibTerms doc head tail boost f l h
            exact ⟨hh1, hh2, Or.inl hh3⟩
          · rw [if_neg hemp] at h
            rw [detectBlock_zero] at h
            exact absurd h (by simp)

/-- C1 counterexample: the claim as stated ("… ≤ pageCount … including the
table-of-contents stage") is false — on a three-page document whose ToC row
reads "Bibliography .......... 250", the detector returns the interval
(250, 250), far beyond the page count: `_bib_from_toc` uses the raw trailing
number of the row without clamping it to `doc.page_count`. -/
theorem detect_bounds_c1_counterexample :
    detectBibliography CFG_C1 DOC_C1_X 2 0 0 1 = .ok (some (250, 250)) ∧
    DOC_C1_X.pages.length = 3 ∧ ¬ ((250 : Int) ≤ ((3 : Nat) : Int)) :=
  ⟨rfl, rfl, by decide⟩

/-- C1 witness: the amended bound theorem applied to a concrete document in
which the keyword stage finds the two-page run (2, 3). -/
theorem detect_bounds_c1_witness :
    1 ≤ (2 : Int) ∧ (2 : Int) ≤ 3 ∧
      ((3 : Int) ≤ (DOC_C1_W.pages.length : Int) ∨
       ∃ tocPg tocLines, scanPdfToc DOC_C1_W = .ok (tocPg, tocLines) ∧
         bibFromToc tocLines = some 2 ∧ (3 : Int) = 2) :=
  detect_bounds_c1 CFG_C1 DOC_C1_W 2 0 0 1 2 3 rfl

/-! ## C5 — the end-to-end example parse -/

/-- C5: the spec example parse is NOT what the code produces.  On the line
"Smith, J., and Doe, A. (2020). A Study of Things. Journal of Studies,
12(3), 45–67." the second `RE_ISBN` alternative
(`\b\d{1,5}[-\s]?\d{1,7}[-\s]?\d{1,7}[-\s]?[\dX]\b`) matches the bare year
"2020" and `strip_and_capture` removes it, so the year is absent and
isbn="2020"; the title fallback then cuts at the first `.` of the mutilated
line and yields "", `RE_VOL_ISS` fails on "12(3)," (its trailing `\b` after
`)` needs a word character, but `,` follows), so volume/issue/pages are all
absent, and the whole rest of the line is swallowed into the second author's
given name.  Expected by the spec: year=2020, title="A Study of Things",
volume=12, issue=3, pages="45–67". -/
theorem parse_smith_doe_c5 :
    parseReference RAW_C5 = .ok REC_C5 ∧
    REC_C5.year = none ∧
    REC_C5.title = "" ∧
    REC_C5.isbn = some "2020" ∧
    REC_C5.volume = none ∧ REC_C5.issue = none ∧ REC_C5.pages = none ∧
    REC_C5.authors = [⟨"Smith", "J."⟩,
      ⟨"Doe", "A. ( ). A Study of Things. Journal of Studies, 12(3), 45–67"⟩] :=
  ⟨rfl, rfl, rfl, rfl, rfl, rfl, rfl, rfl⟩

/-! ## C9 — parser totality and the extractor filter -/

/-- C9: `parse_reference` does NOT always return a best-effort record — on
the line "x;,\n,;y" the chunk ",\n," of `split_people` strips to "\n"
(truthy, so it survives the chunk filter), its whitespace `split()` is empty,
and `parts[-1]` raises `IndexError`.  The second half of the claim holds:
every record the accepting extractor `_parse_page` outputs has non-empty
authors and title, for every line-parser triple. -/
theorem parser_totality_c9 :
    parseReference "x;,\n,;y" = .error "list index out of range" ∧
    ∀ (lp sp fp : String → Option ERec) (txt : String),
      (parsePage lp sp fp txt).all
        (fun r => !(r.authors == "") && !(r.title == "")) = true := by
  refine ⟨rfl, ?_⟩
  intro lp sp fp txt
  rw [List.all_eq_true]
  intro r hr
  rw [parsePage] at hr
  simp only [List.mem_filterMap] at hr
  obtain ⟨raw, _, heq⟩ := hr
  split at heq
  case h_2 => exact absurd heq (by simp)
  case h_1 r1 =>
    split at heq
    case isTrue hcond =>
      injection heq with heq
      rw [← heq]
      exact hcond
    case isFalse => exact absurd heq (by simp)

/-! ## C8 — the year is the last year-like token of the stripped line -/

theorem yearDigits4_digits (ds : List Char) (h : yearDigits4 ds = true) :
    ∃ c1 c2 c3 c4, ds = [c1, c2, c3, c4] ∧ pyIsDigit c1 = true ∧
      pyIsDigit c2 = true ∧ pyIsDigit c3 = true ∧ pyIsDigit c4 = true := by
  match ds, h with
  | [c1, c2, c3, c4], h =>
    simp only [yearDigits4, Bool.and_eq_true] at h
    exact ⟨c1, c2, c3, c4, rfl, h.1.1.1.2, h.1.1.2, h.1.2, h.2⟩

theorem pyIsWord_of_digit (c : Char) (h : pyIsDigit c = true) :
    pyIsWord c = true := by
  simp [pyIsWord, h]

theorem yearTokenAt_le (cs : List Char) (i : Nat)
    (h : yearTokenAt cs i = true) : i + 4 ≤ cs.length := by
  simp only [yearTokenAt, Bool.and_eq_true] at h
  obtain ⟨c1, c2, c3, c4, hshape, _⟩ := yearDigits4_digits _ h.1.2
  have hlen := congrArg List.length hshape
  simp only [List.length_take, List.length_drop, List.length_cons,
    List.length_nil] at hlen
  omega

theorem yearTokenAt_no_overlap (cs : List Char) (i : Nat)
    (h : yearTokenAt cs i = true) :
    ∀ j, i < j → j < i + 4 → yearTokenAt cs j = false := by
  simp only [yearTokenAt, Bool.and_eq_true] at h
  obtain ⟨c1, c2, c3, c4, hshape, hd1, hd2, hd3, hd4⟩ := yearDigits4_digits _ h.1.2
  have hdec : cs.drop i = c1 :: c2 :: c3 :: c4 :: (cs.drop i).drop 4 := by
    conv_lhs => rw [← List.take_append_drop 4 (cs.drop i)]
    rw [hshape]
    rfl
  have hget : ∀ k, k < 4 → cs[i + k]? = some ([c1, c2, c3, c4].getD k ' ') := by
    intro k hk
    rw [← List.getElem?_drop, hdec]
    match k, hk with
    | 0, _ => simp
    | 1, _ => simp
    | 2, _ => simp
    | 3, _ => simp
  intro j hij hj4
  have hcases : j = i + 1 ∨ j = i + 2 ∨ j = i + 3 := by omega
  have hbdryfalse : bdryAt cs j = false := by
    rcases hcases with rfl | rfl | rfl
    · have h0 := hget 0 (by omega)
      have h1 := hget 1 (by omega)
      simp only [bdryAt, if_neg (by omega : ¬ i + 1 = 0)]
      rw [show i + 1 - 1 = i + 0 by omega, h0, h1]
      simp [atBdry, isWordOpt, pyIsWord_of_digit _ hd1, pyIsWord_of_digit _ hd2]
    · have h1 := hget 1 (by omega)
      have h2 := hget 2 (by omega)
      simp only [bdryAt, if_neg (by omega : ¬ i + 2 = 0)]
      rw [show i + 2 - 1 = i + 1 by omega, h1, h2]
      simp [atBdry, isWordOpt, pyIsWord_of_digit _ hd2, pyIsWord_of_digit _ hd3]
    · have h2 := hget 2 (by omega)
      have h3 := hget 3 (by omega)
      simp only [bdryAt, if_neg (by omega : ¬ i + 3 = 0)]
      rw [show i + 3 - 1 = i + 2 by omega, h2, h3]
      simp [atBdry, isWordOpt, pyIsWord_of_digit _ hd3, pyIsWord_of_digit _ hd4]
  simp [yearTokenAt, hbdryfalse]

theorem range1_cons (s n : Nat) :
    List.range' s (n + 1) = s :: List.range' (s + 1) n := rfl

theorem yearScanAux_eq (cs : List Char) :
    ∀ fuel i, cs.length + 1 ≤ i + fuel →
      yearScanAux cs i fuel =
        (List.range' i (cs.length + 1 - i)).filter (yearTokenAt cs) := by
  intro fuel
  induction fuel with
  | zero =>
    intro i hi
    have h0 : cs.length + 1 - i = 0 := by omega
    rw [h0]
    rfl
  | succ fuel ih =>
    intro i hi
    rw [yearScanAux]
    by_cases htok : yearTokenAt cs i = true
    · rw [if_pos htok]
      have h4 := yearTokenAt_le cs i htok
      have hov := yearTokenAt_no_overlap cs i htok
      obtain ⟨m, hm⟩ : ∃ m, cs.length + 1 - i = m + 4 :=
        ⟨cs.length + 1 - i - 4, by omega⟩
      rw [hm]
      have hr : List.range' i (m + 4) =
          i :: (i + 1) :: (i + 2) :: (i + 3) :: List.range' (i + 4) m := rfl
      rw [hr]
      simp only [List.filter_cons, htok,
        hov (i + 1) (by omega) (by omega), hov (i + 2) (by omega) (by omega),
        hov (i + 3) (by omega) (by omega), Bool.false_eq_true,
        eq_self_iff_true, if_true, if_false]
      rw [ih (i + 4) (by omega)]
      have : m = cs.length + 1 - (i + 4) := by omega
      rw [this]
    · rw [if_neg htok]
      have htokf : yearTokenAt cs i = false := by
        cases hh : yearTokenAt cs i
        · rfl
        · exact absurd hh htok
      by_cases hlt : i < cs.length
      · rw [if_pos hlt]
        have h1 : cs.length + 1 - i = (cs.length - i) + 1 := by omega
        rw [h1, range1_cons]
        simp only [List.filter_cons, htokf, Bool.false_eq_true, if_false]
        rw [ih (i + 1) (by omega)]
        have : cs.length - i = cs.length + 1 - (i + 1) := by omega
        rw [this]
      · rw [if_neg hlt]
        rcases (by omega : cs.length + 1 - i = 0 ∨
            (i = cs.length ∧ cs.length + 1 - i = 1)) with h0 | ⟨_, h1⟩
        · rw [h0]; rfl
        · rw [h1, range1_cons]
          simp [List.filter_cons, htokf, List.range']
  
theorem findallYears_eq (cs : List Char) :
    findallYears cs = (List.range (cs.length + 1)).filter (yearTokenAt cs) := by
  rw [findallYears, yearScanAux_eq cs (cs.length + 1) 0 (by omega),
    List.range_eq_range']
  rfl

theorem extractYear_eq_lastYearSpec (cs : List Char) :
    extractYear cs = lastYearSpec cs := by
  rw [extractYear, lastYearSpec, findallYears_eq]

set_option maxHeartbeats 1600000 in
theorem parseRefCore_year (meta : String × String)
    (doi isbn url : Option (List Char)) (s1 : List Char) (r : ParsedRef)
    (h : parseRefCore meta doi isbn url s1 = .ok r) :
    r.year = extractYear s1 := by
  rw [parseRefCore] at h
  cases htq : extractTitleQuoted s1 with
  | none =>
    rw [htq] at h
    dsimp only at h
    split at h
    · exact absurd h (by simp)
    · injection h with h
      exact h ▸ rfl
  | some t =>
    rw [htq] at h
    dsimp only at h
    cases hfi : s1.findIdx? (fun c => c == '“') with
    | none =>
      rw [hfi] at h
      dsimp only at h
      exact absurd h (by simp)
    | some i =>
      rw [hfi] at h
      dsimp only at h
      split at h
      · exact absurd h (by simp)
      · injection h with h
        exact h ▸ rfl

/-- C8: for every line the deep parser accepts, the extracted year is the
LAST boundary-delimited year-like token (range 1600–2199, the precise form
of the spec's "roughly 1500–2199") of the text remaining after the DOI,
ISBN and URL spans have been stripped and captured; absent when no token
remains. -/
theorem year_last_c8 (raw : String) (r : ParsedRef)
    (h : parseReference raw = .ok r) :
    r.year = lastYearSpec (stripIds (pyClean raw.data)) := by
  rw [parseReference] at h
  have hy := parseRefCore_year _ _ _ _ _ r h
  rw [hy, extractYear_eq_lastYearSpec]
  rfl

/-- C8 witness: on "Alpha Beta 1990 text 2005 reprint" the ISBN regex eats
"1990" and the parser's year is 2005, the last remaining year token. -/
theorem year_last_c8_witness :
    REC_C8.year = lastYearSpec (stripIds (pyClean RAW_C8.data)) ∧
    REC_C8.year = some 2005 :=
  ⟨year_last_c8 RAW_C8 REC_C8 rfl, rfl⟩
